import Mathlib

/-!
Verification development for the statil template engine.

The development shallowly embeds the two core source files
(`lib/template.js`, the template compiler, and `lib/methods.js` together
with `src/index.ts`, the hierarchical rendering pipeline) as executable
Lean definitions, and proves the specification's claims about them.

JavaScript values are modelled by the inductive type `Value`; mutation of
a render context is modelled by explicit state passing (each operation
returns the updated context); exceptions are modelled by `Except String`.
External collaborators (the node `path` module, the YAML parser, the host
regular-expression engine and the lodash template compiler used by
`register`) are modelled either by direct translations of node's posix
path algorithms or by explicit function parameters.

The file `lib/statics.js` of the repository is referenced by the sources
but is not part of the provided source tree; the handful of small
functions it contributes (`split`, `stripExt`, `transclude`, `echoLegend`,
the `Hash` constructor and the argument validators) are modelled from the
specification's description of them, and each such definition is marked
`Modelled from the spec:` in its doc comment.
-/
/-! ## JavaScript values -/
/-- A JavaScript value, as far as the engine manipulates them: `undefined` is
JS `undefined`, `null` is `null`, objects are insertion-ordered own-property
maps.  `selfRef` stands for the cyclic self-reference that
`methods.locals` installs under the key `$` (`data.$ = data`); a pure tree
cannot contain the cycle itself, and no claim reads through `$`. -/
inductive Value where
  | undefined
  | null
  | str (s : String)
  | num (n : Int)
  | bool (b : Bool)
  | arr (elems : List Value)
  | obj (fields : List (String × Value))
  | selfRef
deriving Repr

/-- JavaScript truthiness. -/
def truthy : Value → Bool
  | .undefined => false
  | .null => false
  | .str s => s ≠ ""
  | .num n => n ≠ 0
  | .bool b => b
  | .arr _ => true
  | .obj _ => true
  | .selfRef => true

/-- lodash `_.isObject`: arrays and plain objects (and functions) are
objects, primitives are not. -/
def isObject : Value → Bool
  | .arr _ => true
  | .obj _ => true
  | .selfRef => true
  | _ => false

mutual

/-- JavaScript `String(v)` / the coercion performed by `__out += val`. -/
def jsToString : Value → String
  | .undefined => "undefined"
  | .null => "null"
  | .str s => s
  | .num n => toString n
  | .bool b => if b then "true" else "false"
  | .arr xs => jsArrToString xs
  | .obj _ => "[object Object]"
  | .selfRef => "[object Object]"

/-- `Array.prototype.toString`: elements joined with `,`, with `null` and
`undefined` elements contributing the empty string. -/
def jsArrToString : List Value → String
  | [] => ""
  | [x] =>
    match x with
    | .undefined => ""
    | .null => ""
    | v => jsToString v
  | x :: xs =>
    (match x with
     | .undefined => ""
     | .null => ""
     | v => jsToString v) ++ "," ++ jsArrToString xs

end

/-! ## Insertion-ordered own-property maps -/
/-- First binding of `k` in an association list (JS property lookup). -/
def lookupAssoc {α : Type} : List (String × α) → String → Option α
  | [], _ => none
  | (k', v) :: t, k => if k' = k then some v else lookupAssoc t k

/-- `target[k] = v` on an insertion-ordered map: replace the first binding
of `k` in place, or append a new binding. -/
def setAssoc {α : Type} : List (String × α) → String → α → List (String × α)
  | [], k, v => [(k, v)]
  | (k', v') :: t, k, v => if k' = k then (k, v) :: t else (k', v') :: setAssoc t k v

/-- Property read `v[k]`: `undefined` on absent keys and on primitives.
Named properties of arrays (and reads through the `$` self-reference)
are not modelled; no claim depends on them. -/
def getField : Value → String → Value
  | .obj fs, k => (lookupAssoc fs k).getD .undefined
  | _, _ => .undefined

/-- Property write `v[k] = x`; a no-op on non-objects in the model (only
ever used on objects by the pipeline). -/
def setField : Value → String → Value → Value
  | .obj fs, k, x => .obj (setAssoc fs k x)
  | v, _, _ => v

/-- `Object.assign(target, src)` / lodash `_.assign`: copy the own
properties of `src` onto `target` in insertion order.  Non-object sources
contribute nothing (the exotic index-spreading of string sources is not
modelled; no claim passes a string where a source object is expected). -/
def assignV (target src : Value) : Value :=
  match src with
  | .obj fs => fs.foldl (fun acc kv => setField acc kv.1 kv.2) target
  | _ => target

/-- Modelled from the spec: the `Hash` constructor of the missing
`lib/statics.js` — "a no-inherited-properties map type"; `new Hash(data)`
copies `data`'s own properties into a fresh prototype-less object, and
`new Hash()` is an empty one. -/
def hashOf : Value → Value
  | .obj fs => .obj fs
  | _ => .obj []

/-- lodash `_.omit(legend)` with no keys: copies own and inherited
enumerable properties into a plain object.  Values in the model carry no
prototype chain, so the copy is the identity. -/
def omitV (v : Value) : Value := v

/-- Keys of an object value. -/
def objKeys : Value → List String
  | .obj fs => fs.map Prod.fst
  | _ => []

/-! ## The node `path` module (posix), at the precision the engine uses -/
/-- Split a character list on `/`, keeping empty segments (the behaviour
of JavaScript `"…".split('/')`); `acc` holds the current segment
reversed. -/
def splitSegsAux : List Char → List Char → List String
  | [], acc => [String.mk acc.reverse]
  | c :: cs, acc =>
    if c = '/' then String.mk acc.reverse :: splitSegsAux cs []
    else splitSegsAux cs (c :: acc)

/-- Segments of a path string, split on `/`. -/
def splitSegs (s : String) : List String :=
  splitSegsAux s.data []

/-- Join segments with `/` (JavaScript `segs.join('/')`). -/
def joinSlash : List String → String
  | [] => ""
  | [x] => x
  | x :: xs => x ++ "/" ++ joinSlash xs

/-- One step of node's `normalizeString` segment resolution: drop empty
and `.` segments, resolve `..` against the accumulated result, keeping
leading `..` only when `allowUp` (i.e. for relative paths). -/
def stepSeg (allowUp : Bool) (acc : List String) (seg : String) : List String :=
  if seg = "" ∨ seg = "." then acc
  else if seg = ".." then
    match acc.getLast? with
    | some t => if t = ".." then (if allowUp then acc ++ [".."] else acc) else acc.dropLast
    | none => if allowUp then [".."] else []
  else acc ++ [seg]

/-- node's `normalizeString`: resolve `.` and `..` in a segment list. -/
def normalizeSegs (allowUp : Bool) (segs : List String) : List String :=
  segs.foldl (stepSeg allowUp) []

/-- node posix `path.normalize`. -/
def normalizePath (p : String) : String :=
  if p = "" then "."
  else
    let abs := p.data.head? = some '/'
    let trailing := p.data.getLast? = some '/'
    let body := joinSlash (normalizeSegs (!abs) (splitSegs p))
    if body = "" then
      if abs then "/" else if trailing then "./" else "."
    else
      let body := if trailing then body ++ "/" else body
      if abs then "/" ++ body else body

/-- node posix `path.join(a, b)`: empty parts are dropped, the rest are
joined with `/` and normalized; joining nothing gives `"."`. -/
def joinPath (a b : String) : String :=
  let parts := [a, b].filter (· ≠ "")
  match parts with
  | [] => "."
  | _ => normalizePath (joinSlash parts)

/-- node posix `path.dirname`, in the phase form of its scanning loop:
from the end, skip the trailing slashes, then skip the basename; the
slash reached (never at index 0) ends the directory part.  Matches
node's loop (`matchedSlash` & `end`) case for case. -/
def dirname (p : String) : String :=
  match p.data with
  | [] => "."
  | c0 :: rest =>
    let hasRoot := c0 = '/'
    let r2 := (rest.reverse.dropWhile (· = '/')).dropWhile (· ≠ '/')
    match r2 with
    | [] => if hasRoot then "/" else "."
    | _ :: _ =>
      if hasRoot ∧ r2.length = 1 then "//"
      else String.mk ((c0 :: rest).take r2.length)

/-- node posix `path.basename` (no extension argument): the last
non-empty segment, ignoring trailing slashes. -/
def basename (p : String) : String :=
  String.mk (((p.data.reverse.dropWhile (· = '/')).takeWhile (· ≠ '/')).reverse)

/-- node `path.parse(p).ext`: the suffix of the basename from its last
dot; empty for dotless names, for leading-dot names (`.yaml`) and for
`..`. -/
def parseExt (p : String) : String :=
  let b := basename p
  if b = ".." then ""
  else
    match (b.data.reverse.takeWhile (· ≠ '.')).length, b.data.contains '.' with
    | _, false => ""
    | n, true =>
      if b.length - n - 1 = 0 then ""   -- the last dot is the first character
      else String.mk (b.data.drop (b.length - n - 1))

/-- Modelled from the spec: `statics.stripExt` of the missing
`lib/statics.js` — "the extension is stripped"; drops the
`parseExt`-extension from the end of the path. -/
def stripExt (p : String) : String :=
  String.mk (p.data.take (p.length - (parseExt p).length))

/-- node posix `path.resolve(cwd, p)` for an absolute working directory
`cwd`: make `p` absolute against `cwd` and resolve `.`/`..`. -/
def resolveWithCwd (cwd p : String) : List String :=
  let full := if p.data.head? = some '/' then p else cwd ++ "/" ++ p
  normalizeSegs false (splitSegs full)

/-- Longest common prefix length of two segment lists. -/
def commonPrefixLen : List String → List String → Nat
  | a :: as, b :: bs => if a = b then commonPrefixLen as bs + 1 else 0
  | _, _ => 0

/-- node posix `path.relative(from, to)`, with the ambient working
directory made explicit: both ends are resolved against `cwd`, the common
prefix is dropped, and the result climbs with `..` before descending. -/
def ptRelative (cwd from_ to_ : String) : String :=
  let f := resolveWithCwd cwd from_
  let t := resolveWithCwd cwd to_
  let n := commonPrefixLen f t
  joinSlash ((List.replicate (f.length - n) "..") ++ t.drop n)

/-! ## The template compiler (`lib/template.js`) -/
/-- The JavaScript `\s` character class (as used by the `{{\s*...}}` and
whitespace trimming of the delimiter regexps). -/
def isJsSpace (c : Char) : Bool :=
  c = ' ' || c = '\t' || c = '\n' || c = '\x0b' || c = '\x0c' || c = '\r' ||
  c.val = 0xa0 || c.val = 0x1680 || (0x2000 ≤ c.val && c.val ≤ 0x200a) ||
  c.val = 0x2028 || c.val = 0x2029 || c.val = 0x202f || c.val = 0x205f ||
  c.val = 0x3000 || c.val = 0xfeff

/-- Strip `\s` characters from both ends. -/
def trimChars (b : List Char) : List Char :=
  ((b.dropWhile isJsSpace).reverse.dropWhile isJsSpace).reverse

/-- The capture group of `\s*([\s\S]+?)\s*` over a delimiter body: the
trimmed body, except that an all-whitespace body (at least one character)
captures exactly its last character, because `[\s\S]+?` must consume at
least one character and backtracking settles on the last one. -/
def captureOf (b : List Char) : String :=
  let t := trimChars b
  if t.isEmpty then
    match b.reverse with
    | c :: _ => String.mk [c]
    | [] => ""
  else String.mk t

/-- First split `u = body ++ [c, c] ++ rest` with minimal (possibly
empty) `body`, i.e. the leftmost occurrence of the doubled closing
character. -/
def splitAtDouble (c : Char) : List Char → Option (List Char × List Char)
  | [] => none
  | x :: t =>
    match t with
    | [] => none
    | y :: t' =>
      if x = c && y = c then some ([], t')
      else (splitAtDouble c t).map fun p => (x :: p.1, p.2)

/-- Lazy-regex body match: minimal split `u = body ++ [c, c] ++ rest`
with `body` nonempty (`[\s\S]+?` consumes at least one character). -/
def splitBody (c : Char) : List Char → Option (List Char × List Char)
  | [] => none
  | x :: t => (splitAtDouble c t).map fun p => (x :: p.1, p.2)

/-- Try the alternation `{{\s*([\s\S]+?)\s*}}|<<\s*([\s\S]+?)\s*>>` at
the current position (the expression branch first, as in the compiled
`reDelimiters`); yields the branch taken (`true` = expression), the
capture, and the remainder after the match. -/
def tryMatchAt : List Char → Option (Bool × String × List Char)
  | '{' :: '{' :: t => (splitBody '}' t).map fun p => (true, captureOf p.1, p.2)
  | '<' :: '<' :: t => (splitBody '>' t).map fun p => (false, captureOf p.1, p.2)
  | _ => none

/-- Leftmost match of the delimiter alternation: the gap (literal text
before the match), the branch, the capture and the remainder. -/
def findDelim : List Char → Option (List Char × Bool × String × List Char)
  | [] => none
  | c :: cs =>
    match tryMatchAt (c :: cs) with
    | some (k, cap, rest) => some ([], k, cap, rest)
    | none => (findDelim cs).map fun p => (c :: p.1, p.2.1, p.2.2.1, p.2.2.2)

/-- `escapeSpecialChar` together with `reSpecialChars`: the compile-time
escaping of a literal character for inclusion in a generated
single-quoted string literal. -/
def escChar (c : Char) : List Char :=
  if c = '\\' then ['\\', '\\']
  else if c = '\'' then ['\\', '\'']
  else if c = '\n' then ['\\', 'n']
  else if c = '\r' then ['\\', 'r']
  else if c = ' ' then ['\\', 'u', '2', '0', '2', '8']
  else if c = ' ' then ['\\', 'u', '2', '0', '2', '9']
  else [c]

/-- `string.replace(reSpecialChars, escapeSpecialChar)` over a literal
segment. -/
def escapeChars : List Char → List Char
  | [] => []
  | c :: cs => escChar c ++ escapeChars cs

/-- Value of one hexadecimal digit. -/
def hexDigit (c : Char) : Option Nat :=
  let n := c.toNat
  if 48 ≤ n ∧ n ≤ 57 then some (n - 48)
  else if 97 ≤ n ∧ n ≤ 102 then some (n - 87)
  else if 65 ≤ n ∧ n ≤ 70 then some (n - 55)
  else none

/-- Value of a `\uXXXX` escape. -/
def hex4 (a b c d : Char) : Option Nat :=
  match hexDigit a, hexDigit b, hexDigit c, hexDigit d with
  | some x, some y, some z, some w => some (((x * 16 + y) * 16 + z) * 16 + w)
  | _, _, _, _ => none

/-- A single-character escape `\c` in a JS string literal: `\n` and `\r`
map to their control characters, any other character maps to itself
(which covers `\\` and `\'`). -/
def unescOne (c : Char) : Char :=
  if c = 'n' then '\n' else if c = 'r' then '\r' else c

/-- Evaluation of a generated single-quoted string literal's body by the
host: undo the compile-time escaping.  A trailing lone backslash or a
malformed `\uXXXX` is a host-level syntax error and cannot be produced by
`escapeChars`; the model keeps those characters as they stand. -/
def unescapeChars : List Char → List Char
  | [] => []
  | '\\' :: 'u' :: a :: b :: e :: f :: rest =>
    (match hex4 a b e f with
     | some n => [Char.ofNat n]
     | none => ['u', a, b, e, f]) ++ unescapeChars rest
  | '\\' :: 'u' :: rest => 'u' :: unescapeChars rest
  | '\\' :: d :: rest => unescOne d :: unescapeChars rest
  | ['\\'] => ['\\']
  | c :: rest => c :: unescapeChars rest

/-- One compiled instruction of `codeBody`: a literal append (storing the
escaped text exactly as it stands between the quotes of the generated
`__append('…')`), a verbatim statement, or an expression append. -/
inductive Instr where
  | lit (escaped : String)
  | stmt (code : String)
  | expr (code : String)
deriving Repr, DecidableEq

/-- The single left-to-right scan of `compileTemplate`: gaps between
delimiter matches become literal-append instructions when nonempty, each
match becomes a statement or expression instruction, and the text after
the last match becomes a final literal.  The fuel (`length + 1` at the
top call) dominates the number of matches, every match consuming at
least four delimiter characters; the zero-fuel branch is unreachable and
coincides with the no-match branch. -/
def parseAux : Nat → List Char → List Instr
  | 0, cs => if cs.isEmpty then [] else [.lit (String.mk (escapeChars cs))]
  | fuel + 1, cs =>
    match findDelim cs with
    | none => if cs.isEmpty then [] else [.lit (String.mk (escapeChars cs))]
    | some (gap, isExpr, cap, rest) =>
      (if gap.isEmpty then [] else [Instr.lit (String.mk (escapeChars gap))]) ++
      (if isExpr then [Instr.expr cap] else [Instr.stmt cap]) ++ parseAux fuel rest

/-- The instruction sequence compiled from a template source. -/
def parseTemplate (s : String) : List Instr :=
  parseAux (s.length + 1) s.data

/-- A compiled template: the `__context` object captured at compile time
and the instruction sequence of the generated `compiledTemplate`
function.  Only the default delimiter settings are modelled (no claim
exercises custom `reExpression`/`reStatement`/`contextName`). -/
structure Compiled where
  base : Value
  instrs : List Instr

/-- `compileTemplate(string, settings)`: `patch(defaultSettings.context,
settings.context)` builds the captured `__context` object (an empty
object when no context setting is given), and the source is scanned into
instructions. -/
def compileTemplate (source : String) (ctxSetting : Value) : Compiled :=
  { base := assignV (.obj []) ctxSetting, instrs := parseTemplate source }

/-- `val != null`, the guard of the generated `__append`. -/
def isNullish : Value → Bool
  | .undefined => true
  | .null => true
  | _ => false

/-- One instruction of the generated renderer, run against the merged
context under a host expression evaluator `ev`: a literal appends its
unescaped text; `__append(expr)` appends the JS string form of the value
unless it is null/undefined.  A statement contributes no direct output;
its control-flow effect over neighbouring instructions is host-level
behaviour outside this straight-line model, so the theorems about
rendering carry a no-statement hypothesis. -/
def renderInstr (ev : String → Value → Value) (ctx : Value) : Instr → String
  | .lit s => String.mk (unescapeChars s.data)
  | .expr e => if isNullish (ev e ctx) then "" else jsToString (ev e ctx)
  | .stmt _ => ""

/-- Straight-line execution of an instruction sequence: the `__out`
accumulator. -/
def renderSeq (ev : String → Value → Value) (ctx : Value) : List Instr → String
  | [] => ""
  | i :: is => renderInstr ev ctx i ++ renderSeq ev ctx is

/-- `$ = Object.assign({}, __context, $)`: the per-call context merged
over the compile-time context. -/
def mergedCtx (c : Compiled) (arg : Value) : Value :=
  assignV (assignV (.obj []) c.base) arg

/-- `compiledTemplate($)`: merge the contexts, run the instructions,
return `__out`. -/
def renderCompiled (ev : String → Value → Value) (c : Compiled) (arg : Value) : String :=
  renderSeq ev (mergedCtx c arg) c.instrs

/-- Whether an instruction is a raw statement. -/
def isStmt : Instr → Bool
  | .stmt _ => true
  | _ => false

/-! ## The rendering pipeline (`lib/methods.js`, `src/index.ts`) -/
/-- A registered template as the pipeline sees it: a function from the
render context to an output string, possibly mutating the context (the
updated context is returned) and possibly throwing. -/
def Tmpl : Type := Value → Except String (String × Value)

/-- The state of a `Statil` instance: the template registry, the
metadata registry (both insertion-ordered maps) and the optional
`rename` hook.  `rename` returning `none` models a `void` return and an
empty string models any falsy string, both of which keep the original
path. -/
structure Statil where
  templates : List (String × Tmpl)
  meta : List (String × Value)
  rename : Option (String → Option String)

/-- Error message of the `validateTruthyString` guard (modelled from the
spec: "empty string where non-empty required" fails fast). -/
def truthyStringErr : String := "expected a non-empty string"

/-- `Statil#metaAtPath`: a trailing slash marks a directory path (the
slash is stripped); otherwise the file name is stripped with
`pt.dirname`; then the metadata registry is consulted. -/
def metaAtPath (s : Statil) (path : String) : Option Value :=
  let dir := if path.data.getLast? = some '/' then String.mk path.data.dropLast
             else dirname path
  lookupAssoc s.meta dir

/-- lodash `_.find(files, \x7bname: bn\x7d)`: first element whose `name`
property equals `bn`.  `_.find` also walks the values of a plain object
collection; anything else yields `undefined`. -/
def findLegend (files : Value) (bn : String) : Option Value :=
  let nameMatches := fun e => match getField e "name" with
    | .str s => s = bn
    | _ => false
  match files with
  | .arr els => els.find? nameMatches
  | .obj fs => (fs.map Prod.snd).find? nameMatches
  | _ => none

/-- `Statil#fileLegend`: the legend of `path`'s basename inside its
directory's metadata, when the metadata is truthy. -/
def fileLegend (s : Statil) (path : String) : Option Value :=
  match metaAtPath s path with
  | some m => if truthy m then findLegend (getField m "files") (basename path) else none
  | none => none

/-- Modelled from the spec: `statics.echoLegend` of the missing
`lib/statics.js` — "Requires `legend.echo` to name an existing sequence
inside `metadata`; fails if the group is missing, not a sequence, or any
element lacks a `name`."  Returns the named group's elements. -/
def echoLegend (meta : Option Value) (legend : Value) : Except String (List Value) :=
  match getField legend "echo" with
  | .str g =>
    match meta with
    | some m =>
      match getField m g with
      | .arr els =>
        if els.all fun e => match getField e "name" with
            | .str _ => true
            | _ => false
        then .ok els
        else .error "echo: legend group element lacks a name"
      | _ => .error "echo: missing or malformed legend group"
    | none => .error "echo: missing metadata"
  | _ => .error "echo: the echo option must name a legend group"

/-- The `$content` of a context as the string it is guaranteed to be
after `methods.locals` ran (the coercion through `jsToString` is inert
in every reachable state). -/
def contentStr (data : Value) : String :=
  match getField data "$content" with
  | .str c => c
  | v => jsToString v

/-- Modelled from the spec: `statics.transclude` of the missing
`lib/statics.js` — the "no-op passthrough renderer whose output is
simply the current `$content`". -/
def transclude : Tmpl := fun data => .ok (contentStr data, data)

/-- `if (!_.isObject(data)) data = new Hash()`. -/
def ensureObj (v : Value) : Value :=
  if isObject v then v else .obj []

/-- Number of characters to a fixed point of `dirname` (fuel for the
ancestor walk). -/
def dirChain : Nat → String → List String
  | 0, d => [d]
  | fuel + 1, d =>
    if d = "." ∨ d = "/" ∨ d = "" then [d]
    else dirChain fuel (dirname d) ++ [d]

/-- Modelled from the spec: `statics.split` of the missing
`lib/statics.js` — "compute the ordered ancestor chain for `path`, from
the leaf up through each parent directory to the root (`index`)
template".  The chain lists, root end first, the `index` template of
every ancestor directory of the path and then the path itself (the leaf
entry is not duplicated when the path is itself such an `index` file);
`renderThrough` consumes it right to left. -/
def split (path : String) : List String :=
  let dirs := dirChain path.length (dirname path)
  (dirs.map (fun d => joinPath d "index")).filter (· ≠ path) ++ [path]

/-- One default-locals guard of `methods.locals`: `if (typeof data[k]
!== 'string') data[k] = ''`. -/
def ensureStrField (k : String) (data : Value) : Value :=
  match getField data k with
  | .str _ => data
  | _ => setField data k (.str "")

/-- `methods.locals`: guarantee string `$content` and `$title`, install
the `$` self-reference, attach truthy directory metadata as `$meta`, and
merge the file's legend fields into the context (the intentional
"bleed-through").  Its two validators hold by construction at every call
site (the path is a string; the context has been made an object). -/
def locals (s : Statil) (path : String) (data : Value) : Value :=
  let data := ensureStrField "$content" data
  let data := ensureStrField "$title" data
  let data := setField data "$" .selfRef
  let data := match metaAtPath s path with
    | some m => if truthy m then setField data "$meta" m else data
    | none => data
  match fileLegend s path with
  | some lg => assignV data lg
  | none => data

/-- `methods.renderOne`: validate the path, resolve the template at the
extension-stripped path (falling back to the `transclude` passthrough),
make the context writable, install the default locals, and run the
renderer (a failure is logged with the path and rethrown unchanged). -/
def renderOne (s : Statil) (path : String) (data : Value) : Except String (String × Value) :=
  if path = "" then .error truthyStringErr
  else
    let template := (lookupAssoc s.templates (stripExt path)).getD transclude
    let data := ensureObj data
    let data := locals s path data
    template data

/-- The `_.eachRight` loop of `renderThrough`: process the compounded
chain from the leaf end, assigning each output to `$content`. -/
def renderChain (s : Statil) : List String → Value → Except String Value
  | [], data => .ok data
  | p :: rest, data =>
    match renderOne s p data with
    | .ok (out, data') => renderChain s rest (setField data' "$content" (.str out))
    | .error e => .error e

/-- `methods.renderThrough`: validate the path, make the context
writable, render the compounded ancestor chain leaf-to-root reusing the
one mutable context, and return the final `$content`. -/
def renderThrough (s : Statil) (path : String) (data : Value) : Except String (String × Value) :=
  if path = "" then .error truthyStringErr
  else
    let data := ensureObj data
    match renderChain s (split path).reverse data with
    | .ok data' => .ok (contentStr data', data')
    | .error e => .error e

/-- The `rename` hook applied to a virtual path: a function result
replaces the path only when truthy. -/
def applyRename (r : Option (String → Option String)) (p : String) : String :=
  match r with
  | some f => match f p with
    | some q => if q = "" then p else q
    | none => p
  | none => p

/-- The `_.each(datas, …)` loop of `renderTemplate`: for each context
clone, compute the virtual path from the template's directory and the
clone's `name`, store it as `$path`, render through the original
template path, apply the `rename` hook, and record the result.
`pt.join` throws on a non-string `name` (node validates its arguments).
-/
def renderDatas (s : Statil) (path : String) :
    List Value → List (String × String) → Except String (List (String × String))
  | [], buffer => .ok buffer
  | d :: rest, buffer =>
    match getField d "name" with
    | .str n =>
      let echoPath := joinPath (dirname path) n
      let d := setField d "$path" (.str echoPath)
      match renderThrough s path d with
      | .ok (result, _) =>
        renderDatas s path rest (setAssoc buffer (applyRename s.rename echoPath) result)
      | .error e => .error e
    | v => .error ("Path must be a string. Received " ++ jsToString v)

/-- `methods.renderTemplate`: clone the caller's locals, merge the
template's legend, set `name` to the template's basename; when the
legend has a truthy `echo`, expand the named group into one clone per
element (own-property copies of the base merged with each element);
render each clone and map virtual paths to outputs. -/
def renderTemplate (s : Statil) (path : String) (data : Value) :
    Except String (List (String × String)) :=
  let legend := fileLegend s path
  let base := assignV (hashOf data) (legend.getD .undefined)
  let base := setField base "name" (.str (basename path))
  let datasE : Except String (List Value) :=
    match legend with
    | some l =>
      if truthy (getField l "echo") then
        match echoLegend (metaAtPath s path) l with
        | .ok legends => .ok (legends.map fun lg => assignV (hashOf base) (omitV lg))
        | .error e => .error e
      else .ok [base]
    | none => .ok [base]
  match datasE with
  | .ok datas => renderDatas s path datas []
  | .error e => .error e

/-- `methods.isIgnored`: whether the basename of `path` matches the
truthy `ignore` pattern of its directory's metadata.  The host regular
expression engine behind `String.prototype.match` is an external
collaborator, passed in as `rmatch basename pattern`; a truthy non-string
`ignore` fails `validateTruthyString`. -/
def isIgnored (rmatch : String → String → Bool) (s : Statil) (path : String) :
    Except String Bool :=
  match metaAtPath s path with
  | none => .ok false
  | some m =>
    let ig := getField m "ignore"
    if truthy ig then
      match ig with
      | .str pat => .ok (rmatch (basename path) pat)
      | _ => .error truthyStringErr
    else .ok false

/-- The iteration of `Statil#render` over the registered templates:
skip ignored paths, merge every other template's rendered entries into
the buffer. -/
def renderLoop (rmatch : String → String → Bool) (s : Statil) (data : Value) :
    List (String × Tmpl) → List (String × String) → Except String (List (String × String))
  | [], buffer => .ok buffer
  | (p, _) :: rest, buffer =>
    match isIgnored rmatch s p with
    | .error e => .error e
    | .ok true => renderLoop rmatch s data rest buffer
    | .ok false =>
      match renderTemplate s p data with
      | .ok entries =>
        renderLoop rmatch s data rest
          (entries.foldl (fun b kv => setAssoc b kv.1 kv.2) buffer)
      | .error e => .error e

/-- `Statil#render`: the orchestrator over all registered templates. -/
def render (rmatch : String → String → Bool) (s : Statil) (data : Value) :
    Except String (List (String × String)) :=
  renderLoop rmatch s data s.templates []

/-- `Statil#register`: validate the arguments, strip the working
directory, then either parse and store directory metadata (`.yaml` /
`.json`, at most one truthy metadata per directory) or compile and store
a template under the extension-stripped path.  The YAML parser and the
lodash template compiler are external collaborators, passed in as
`yamlP` and `comp`. -/
def register (comp : String → Except String Tmpl) (yamlP : String → Value)
    (cwd : String) (s : Statil) (source path : String) : Except String Statil :=
  if path = "" then .error truthyStringErr
  else
    let path := ptRelative cwd cwd path
    if parseExt path = ".yaml" ∨ parseExt path = ".json" then
      let dir := dirname path
      match lookupAssoc s.meta dir with
      | some m =>
        if truthy m then .error ("duplicate meta for path: " ++ dir)
        else .ok { s with meta := setAssoc s.meta dir (yamlP source) }
      | none => .ok { s with meta := setAssoc s.meta dir (yamlP source) }
    else
      let path := stripExt path
      match comp source with
      | .ok t => .ok { s with templates := setAssoc s.templates path t }
      | .error m =>
        .error ("Failed to compile template at path `" ++ path ++ "`. Error: " ++ m)

/-- `methods.$entitle`: prepend (or assign) a page-title segment to
`data.$title`; a non-object context or a non-string or empty title is
ignored. -/
def entitle (title data : Value) : Value :=
  if isObject data then
    match title with
    | .str t =>
      if t = "" then data
      else
        match getField data "$title" with
        | .str old => if old = "" then setField data "$title" (.str t)
                      else setField data "$title" (.str (t ++ " | " ++ old))
        | _ => setField data "$title" (.str t)
    | _ => data
  else data

/-- `methods.$active`: `"active"` when `pt.relative(path, data.$path)`
does not start with the character `.`, the empty string otherwise or on
missing/wrong-shaped inputs.  The working directory that
`path.relative` resolves against is made explicit. -/
def active (cwd : String) (path data : Value) : String :=
  if isObject data then
    match path with
    | .str pf =>
      match getField data "$path" with
      | .str dp =>
        if (ptRelative cwd pf dp).data.head? = some '.' then "" else "active"
      | _ => ""
    | _ => ""
  else ""

/-! ## Shared helper lemmas -/
/-- An empty `Statil` instance. -/
def noStatil : Statil := { templates := [], meta := [], rename := none }

def slashStatil : Statil :=
  { templates := [], meta := [("/", .obj [("k", .str "v")])], rename := none }

/-! ## C8: duplicate metadata registration -/
def yNull : String → Value := fun _ => Value.null

def comp0 : String → Except String Tmpl := fun _ => .error "unused"

def metaNullStatil : Statil :=
  { templates := [], meta := [("a", Value.null)], rename := none }

def dupStatil : Statil :=
  { templates := [], meta := [("a", Value.obj [("x", Value.num 1)])], rename := none }

/-! ## C2: echo expansion -/
/-- A simple file name: non-empty, slash-free, not a dot segment. -/
def SimpleName (n : String) : Prop :=
  n ≠ "" ∧ n ≠ "." ∧ n ≠ ".." ∧ ∀ c ∈ n.data, c ≠ '/'

/-- The base context `renderTemplate` builds before echoing: the
caller's locals cloned, the legend merged, `name` set to the template's
basename. -/
def echoBase (s : Statil) (p : String) (data : Value) : Value :=
  setField (assignV (hashOf data) ((fileLegend s p).getD .undefined)) "name"
    (.str (basename p))

/-- The render context `renderTemplate` builds for one echo element:
an own-property clone of the base merged with the element, with `$path`
set to the virtual output path. -/
def echoCtx (s : Statil) (p : String) (data e : Value) (n : String) : Value :=
  setField (assignV (hashOf (echoBase s p data)) (omitV e)) "$path"
    (.str (joinPath (dirname p) n))

def leafTmpl : Tmpl := fun d => .ok ("leaf", d)

def e1C : Value := .obj [("name", .str "x1")]

def e2C : Value := .obj [("name", .str "x2")]

def e3C : Value := .obj [("name", .str "x3")]

def lC : Value := .obj [("name", .str "t"), ("echo", .str "groupX")]

def mC : Value := .obj [("groupX", .arr [e1C, e2C, e3C]), ("files", .arr [lC])]

def echoStatil : Statil :=
  { templates := [("d/t", leafTmpl)], meta := [("d", mC)], rename := none }

def eqMatch : String → String → Bool := fun bn pat => bn == pat

def igMeta : Value := .obj [("ignore", .str "skip")]

def igStatil : Statil :=
  { templates := [("d/skip", leafTmpl), ("d/keep", leafTmpl)],
    meta := [("d", igMeta)], rename := none }

/-! ## Theorems -/

theorem lookup_setAssoc_self {α : Type} (l : List (String × α)) (k : String) (v : α) :
    lookupAssoc (setAssoc l k v) k = some v := by
  induction l with
  | nil => simp [setAssoc, lookupAssoc]
  | cons kv t ih =>
    by_cases h : kv.1 = k <;> simp [setAssoc, lookupAssoc, h, ih]

theorem lookup_setAssoc_other {α : Type} (l : List (String × α)) (k k' : String) (v : α)
    (h : k ≠ k') : lookupAssoc (setAssoc l k v) k' = lookupAssoc l k' := by
  induction l with
  | nil => simp [setAssoc, lookupAssoc, h]
  | cons kv t ih =>
    by_cases h1 : kv.1 = k <;> by_cases h2 : kv.1 = k' <;>
      simp_all [setAssoc, lookupAssoc]

theorem getField_setField_self (fs : List (String × Value)) (k : String) (v : Value) :
    getField (setField (.obj fs) k v) k = v := by
  simp [setField, getField, lookup_setAssoc_self]

theorem getField_setField_other (fs : List (String × Value)) (k k' : String) (v : Value)
    (h : k ≠ k') : getField (setField (.obj fs) k v) k' = getField (.obj fs) k' := by
  simp [setField, getField, lookup_setAssoc_other _ _ _ _ h]

@[simp] theorem setField_obj_eq (fs : List (String × Value)) (k : String) (v : Value) :
    setField (.obj fs) k v = .obj (setAssoc fs k v) := rfl

theorem assignV_obj (a : List (String × Value)) (src : Value) :
    ∃ fs', assignV (.obj a) src = .obj fs' := by
  match src with
  | .undefined | .null | .str _ | .num _ | .bool _ | .arr _ | .selfRef => exact ⟨a, rfl⟩
  | .obj fs =>
    induction fs generalizing a with
    | nil => exact ⟨a, rfl⟩
    | cons kv t ih =>
      simpa [assignV, setField] using ih (setAssoc a kv.1 kv.2)

/-- Folding property writes over keys not containing `k` preserves the
binding of `k`. -/
theorem getField_foldl_notMem (l : List (String × Value)) (a : List (String × Value))
    (k : String) (h : ∀ kv ∈ l, kv.1 ≠ k) :
    getField (l.foldl (fun acc kv => setField acc kv.1 kv.2) (.obj a)) k
      = getField (.obj a) k := by
  induction l generalizing a with
  | nil => rfl
  | cons kv t ih =>
    have hk : kv.1 ≠ k := h kv (List.mem_cons_self kv t)
    have ht : ∀ kv' ∈ t, kv'.1 ≠ k := fun kv' hm => h kv' (List.mem_cons_of_mem kv hm)
    simp only [List.foldl_cons, setField_obj_eq]
    rw [ih (setAssoc a kv.1 kv.2) ht]
    exact getField_setField_other a kv.1 k kv.2 hk

/-- Reading a key of `assignV target src` when the key is bound in `src`
(whose keys carry no duplicates) yields `src`'s value. -/
theorem getField_assignV_of_lookup (a fs : List (String × Value)) (k : String) (v : Value)
    (hnd : (fs.map Prod.fst).Nodup) (hv : lookupAssoc fs k = some v) :
    getField (assignV (.obj a) (.obj fs)) k = v := by
  induction fs generalizing a with
  | nil => simp [lookupAssoc] at hv
  | cons kv t ih =>
    simp only [List.map_cons, List.nodup_cons] at hnd
    by_cases hk : kv.1 = k
    · subst hk
      have hv' : kv.2 = v := by simpa [lookupAssoc] using hv
      subst hv'
      have hnotin : ∀ kv' ∈ t, kv'.1 ≠ kv.1 := by
        intro kv' hm heq
        exact hnd.1 (heq ▸ List.mem_map_of_mem Prod.fst hm)
      simp only [assignV, List.foldl_cons, setField_obj_eq]
      rw [getField_foldl_notMem t (setAssoc a kv.1 kv.2) kv.1 hnotin]
      exact getField_setField_self a kv.1 kv.2
    · simp only [lookupAssoc, if_neg hk] at hv
      simp only [assignV, List.foldl_cons, setField_obj_eq] at *
      exact ih (setAssoc a kv.1 kv.2) hnd.2 hv

/-- Reading a key of `assignV target src` that `src` does not bind falls
through to `target`. -/
theorem getField_assignV_of_notMem (a fs : List (String × Value)) (k : String)
    (h : lookupAssoc fs k = none) :
    getField (assignV (.obj a) (.obj fs)) k = getField (.obj a) k := by
  have hmem : ∀ kv ∈ fs, kv.1 ≠ k := by
    intro kv hm heq
    induction fs with
    | nil => simp at hm
    | cons kv' t ih =>
      rcases List.mem_cons.mp hm with h1 | h1
      · subst h1
        simp [lookupAssoc, heq] at h
      · by_cases hx : kv'.1 = k
        · simp [lookupAssoc, hx] at h
        · simp only [lookupAssoc, if_neg hx] at h
          exact ih h h1
  exact getField_foldl_notMem fs a k hmem

example : dirname "a/b" = "a" := by decide
example : dirname "a/b/c" = "a/b" := by decide
example : dirname "/f" = "/" := by decide
example : dirname "//f" = "//" := by decide
example : dirname "a//f" = "a/" := by decide
example : dirname "a/" = "." := by decide
example : dirname "f" = "." := by decide
example : basename "a/b" = "b" := by decide
example : basename "a/b//" = "b" := by decide
example : basename "/" = "" := by decide
example : parseExt "a/m.yaml" = ".yaml" := by decide
example : parseExt "a/.yaml" = "" := by decide
example : parseExt "a/b" = "" := by decide
example : parseExt "a.b.c" = ".c" := by decide
example : stripExt "a/m.yaml" = "a/m" := by decide
example : stripExt "d/t" = "d/t" := by decide
example : joinPath "." "index" = "index" := by decide
example : joinPath "d" "x1" = "d/x1" := by decide
example : joinPath "a/b" ".." = "a" := by decide
example : normalizePath "a/../b//c/" = "b/c/" := by decide
example : ptRelative "/" "/docs/" "/docs/intro" = "intro" := by decide
example : ptRelative "/" "/blog/" "/docs/intro" = "../docs/intro" := by decide
example : ptRelative "/" "/docs/" "/docs/.hidden" = ".hidden" := by decide
example : ptRelative "/" "/a/b" "/a/b" = "" := by decide
example : ptRelative "/w" "/w" "a/m.yaml" = "a/m.yaml" := by decide

example : parseTemplate "Hi \x7b\x7b name \x7d\x7d!" =
    [.lit "Hi ", .expr "name", .lit "!"] := by decide
example : parseTemplate "a\nb'c" = [.lit "a\\nb\\'c"] := by decide
example : parseTemplate "x \x7b\x7b\x7d\x7d y" = [.lit "x \x7b\x7b\x7d\x7d y"] := by decide
example : parseTemplate "<< if (x) \x7b >>A<< \x7d >>" =
    [.stmt "if (x) \x7b", .lit "A", .stmt "\x7d"] := by decide
example : findDelim "plain 'text'\n".data = none := by decide
example : String.mk (unescapeChars (escapeChars "a\nb'c\\d\r  ".data))
    = "a\nb'c\\d\r  " := by decide

theorem getField_obj_of_isObject (data : Value) (h : isObject data = true)
    (hnotarr : ∀ xs, data ≠ .arr xs) (hnotself : data ≠ .selfRef) :
    ∃ fs, data = .obj fs := by
  cases data <;> simp_all [isObject]

theorem entitle_obj_shape (fs : List (String × Value)) (t : String) :
    ∃ fs', entitle (.str t) (.obj fs) = .obj fs' := by
  unfold entitle
  simp only [show isObject (Value.obj fs) = true from rfl, if_true]
  by_cases ht : t = ""
  · exact ⟨fs, by simp [ht]⟩
  · simp only [ht, ite_false]
    split
    · split <;> exact ⟨_, rfl⟩
    · exact ⟨_, rfl⟩

theorem getField_obj_str (fs : List (String × Value)) (k : String) (old : String)
    (hv : getField (.obj fs) k = Value.str old) :
    lookupAssoc fs k = some (Value.str old) := by
  cases h : lookupAssoc fs k with
  | none => simp [getField, h] at hv
  | some v => simp [getField, h] at hv; rw [hv]

/-- C6: for a context object and non-empty string titles, `$entitle`
sets `$title` to the title when `$title` is unset or empty and otherwise
prepends it with a `" | "` separator, so `$entitle("A", ctx)` then
`$entitle("B", ctx)` leaves `ctx.$title = "B | A"`; a non-string or
empty title, or a non-object context, is a no-op. -/
theorem c6_entitle_prepend_semantics :
    (∀ (fs : List (String × Value)) (t old : String), t ≠ "" →
       getField (.obj fs) "$title" = Value.str old → old ≠ "" →
       getField (entitle (.str t) (.obj fs)) "$title" = .str (t ++ " | " ++ old)) ∧
    (∀ (fs : List (String × Value)) (t : String), t ≠ "" →
       (∀ u, getField (Value.obj fs) "$title" = Value.str u → u = "") →
       getField (entitle (.str t) (.obj fs)) "$title" = .str t) ∧
    (∀ (fs : List (String × Value)) (a b : String), a ≠ "" → b ≠ "" →
       (∀ u, getField (Value.obj fs) "$title" = Value.str u → u = "") →
       getField (entitle (.str b) (entitle (.str a) (.obj fs))) "$title"
         = .str (b ++ " | " ++ a)) ∧
    (∀ (title data : Value), isObject data = false → entitle title data = data) ∧
    (∀ data : Value, entitle (.str "") data = data) ∧
    (∀ (title data : Value), (∀ t, title ≠ Value.str t) → entitle title data = data) := by
  have hset : ∀ (fs : List (String × Value)) (t : String), t ≠ "" →
      (∀ u, getField (Value.obj fs) "$title" = Value.str u → u = "") →
      entitle (.str t) (.obj fs) = setField (.obj fs) "$title" (.str t) := by
    intro fs t ht hu
    unfold entitle
    simp only [show isObject (Value.obj fs) = true from rfl, if_true, ht, ite_false]
    cases hv : getField (Value.obj fs) "$title" with
    | str u => have : u = "" := hu u hv; simp [this]
    | undefined => rfl
    | null => rfl
    | num n => rfl
    | bool b => rfl
    | arr xs => rfl
    | obj fs2 => rfl
    | selfRef => rfl
  have hpre : ∀ (fs : List (String × Value)) (t old : String), t ≠ "" →
      getField (.obj fs) "$title" = Value.str old → old ≠ "" →
      getField (entitle (.str t) (.obj fs)) "$title" = .str (t ++ " | " ++ old) := by
    intro fs t old ht hv ho
    unfold entitle
    simp only [show isObject (Value.obj fs) = true from rfl, if_true, ht, ite_false, hv, ho]
    exact getField_setField_self fs "$title" _
  refine ⟨hpre, ?_, ?_, ?_, ?_, ?_⟩
  · intro fs t ht hu
    rw [hset fs t ht hu]
    exact getField_setField_self fs "$title" _
  · intro fs a b ha hb hu
    rw [hset fs a ha hu]
    exact hpre (setAssoc fs "$title" (.str a)) b a hb
      (getField_setField_self fs "$title" _) ha
  · intro title data h
    unfold entitle
    simp [h]
  · intro data
    unfold entitle
    split
    · rfl
    · rfl
  · intro title data h
    unfold entitle
    cases title with
    | str t => exact absurd rfl (h t)
    | undefined => split <;> rfl
    | null => split <;> rfl
    | num n => split <;> rfl
    | bool b => split <;> rfl
    | arr xs => split <;> rfl
    | obj fs => split <;> rfl
    | selfRef => split <;> rfl

theorem c6_witness :
    getField (entitle (.str "B") (entitle (.str "A") (.obj []))) "$title"
      = Value.str "B | A" := by
  have h := c6_entitle_prepend_semantics.2.2.1 [] "A" "B"
    (by decide) (by decide) (fun u hu => by simp [getField, lookupAssoc] at hu)
  exact h

/-- C4 counterexample: `renderOne` and `renderThrough` do not fail on a
non-object context — a string or number supplied as the data argument is
silently replaced by a fresh empty context and rendering proceeds to a
successful result. -/
theorem c4_counterexample :
    renderOne noStatil "p" (.str "nope")
      = .ok ("", .obj [("$content", .str ""), ("$title", .str ""), ("$", .selfRef)]) ∧
    renderThrough noStatil "p" (.num 5)
      = .ok ("", .obj [("$content", .str ""), ("$title", .str ""), ("$", .selfRef)]) :=
  ⟨rfl, rfl⟩

/-- C4 (amended): a non-object data argument to `renderOne` or
`renderThrough` is not a validation error: it is replaced by a fresh
empty mutable context and the operation proceeds exactly as if that
context had been supplied; only the path argument is validated,
failing fast when it is empty. -/
theorem c4_nonobject_context_replaced (s : Statil) (path : String) (data : Value)
    (h : isObject data = false) :
    renderOne s path data = renderOne s path (.obj []) ∧
    renderThrough s path data = renderThrough s path (.obj []) ∧
    (path = "" → renderOne s path data = .error truthyStringErr ∧
                 renderThrough s path data = .error truthyStringErr) := by
  refine ⟨?_, ?_, ?_⟩
  · unfold renderOne
    simp [ensureObj, h]
  · unfold renderThrough
    simp [ensureObj, h]
  · intro hp
    subst hp
    exact ⟨rfl, rfl⟩

theorem c4_witness :
    isObject (Value.str "x") = false ∧
    renderOne noStatil "q" (Value.str "x") = renderOne noStatil "q" (Value.obj []) :=
  ⟨rfl, (c4_nonobject_context_replaced noStatil "q" (Value.str "x") rfl).1⟩

theorem dropWhile_slash_head_ne (c : Char) (l : List Char) (h : c ≠ '/') :
    (c :: l).dropWhile (· = '/') = c :: l := by
  simp [List.dropWhile_cons, h]

theorem dropWhile_ne_slash_append (xs zs : List Char) (h : ∀ c ∈ xs, c ≠ '/') :
    (xs ++ '/' :: zs).dropWhile (· ≠ '/') = '/' :: zs := by
  induction xs with
  | nil => simp [List.dropWhile_cons]
  | cons c t ih =>
    have hc : decide (c ≠ '/') = true := by
      simp [h c (List.mem_cons_self _ _)]
    rw [List.cons_append, List.dropWhile_cons, if_pos hc]
    exact ih fun c' hm => h c' (List.mem_cons_of_mem _ hm)

theorem string_data_ne_nil (d : String) (h : d ≠ "") : d.data ≠ [] := by
  intro hd
  exact h (String.ext (hd.trans rfl))

theorem dirname_append_basename (d f : String) (hd : d ≠ "") (hdr : d ≠ "/")
    (hf : f ≠ "") (hfs : ∀ c ∈ f.data, c ≠ '/') :
    dirname (d ++ "/" ++ f) = d := by
  obtain ⟨c0, dtl, hdd⟩ : ∃ c0 dtl, d.data = c0 :: dtl := by
    cases hdt : d.data with
    | nil => exact absurd hdt (string_data_ne_nil d hd)
    | cons a t => exact ⟨a, t, rfl⟩
  obtain ⟨cf, ftl, hfd⟩ : ∃ cf ftl, f.data.reverse = cf :: ftl := by
    cases hft : f.data.reverse with
    | nil =>
      have : f.data = [] := by simpa using congrArg List.reverse hft
      exact absurd this (string_data_ne_nil f hf)
    | cons a t => exact ⟨a, t, rfl⟩
  have hcs : (d ++ "/" ++ f).data = c0 :: (dtl ++ '/' :: f.data) := by
    rw [String.data_append, String.data_append, hdd]
    have h1 : "/".data = ['/'] := rfl
    rw [h1]
    simp
  have hcf : cf ≠ '/' := by
    have : cf ∈ f.data := by
      have : cf ∈ f.data.reverse := by rw [hfd]; exact List.mem_cons_self _ _
      simpa using this
    exact hfs cf this
  have hphase1 : ((dtl ++ '/' :: f.data).reverse).dropWhile (· = '/')
      = f.data.reverse ++ '/' :: dtl.reverse := by
    have hrev : (dtl ++ '/' :: f.data).reverse = f.data.reverse ++ '/' :: dtl.reverse := by
      simp
    rw [hrev, hfd, List.cons_append]
    exact dropWhile_slash_head_ne cf (ftl ++ '/' :: dtl.reverse) hcf
  have hphase2 : (f.data.reverse ++ '/' :: dtl.reverse).dropWhile (· ≠ '/')
      = '/' :: dtl.reverse := by
    refine dropWhile_ne_slash_append _ _ ?_
    intro c hm
    exact hfs c (by simpa using hm)
  have hcond : ¬(c0 = '/' ∧ ('/' :: dtl.reverse).length = 1) := by
    rintro ⟨h1, h2⟩
    have hdtl : dtl = [] := by
      simp at h2
      exact List.length_eq_zero.mp (by simpa using h2)
    apply hdr
    apply String.ext
    rw [hdd, hdtl, h1]
  have htake : (c0 :: (dtl ++ '/' :: f.data)).take ('/' :: dtl.reverse).length
      = c0 :: dtl := by
    have hlen : ('/' :: dtl.reverse).length = dtl.length + 1 := by simp
    rw [hlen, List.take_succ_cons]
    congr 1
    exact List.take_left dtl ('/' :: f.data)
  unfold dirname
  rw [hcs]
  dsimp only
  rw [hphase1, hphase2]
  rw [if_neg hcond]
  rw [htake]
  exact String.ext (by rw [hdd])

/-- C10 counterexample: for the directory path `d = "/"` with a file
`f` inside it, the trailing-slash form `d ++ "/"` resolves to the
registry key `"/"` while the file form `d ++ "/" ++ f` resolves through
node `dirname("//f") = "//"` to the key `"//"`, so the two lookups
disagree on a registry holding metadata at `"/"`. -/
theorem c10_counterexample :
    metaAtPath slashStatil ("/" ++ "/") = some (.obj [("k", .str "v")]) ∧
    metaAtPath slashStatil ("/" ++ "/" ++ "f") = none ∧
    metaAtPath slashStatil ("/" ++ "/") ≠ metaAtPath slashStatil ("/" ++ "/" ++ "f") := by
  refine ⟨rfl, rfl, ?_⟩
  intro h
  have h1 : metaAtPath slashStatil ("/" ++ "/") = some (.obj [("k", .str "v")]) := rfl
  have h2 : metaAtPath slashStatil ("/" ++ "/" ++ "f") = none := rfl
  rw [h1, h2] at h
  exact Option.noConfusion h

/-- C10 (amended): for every directory path `d` other than `""` and the
filesystem root `"/"`, and every non-empty slash-free file basename `f`,
`metaAtPath` returns the same metadata entry for the trailing-slash
directory form `d ++ "/"` as for the file path `d ++ "/" ++ f`. -/
theorem c10_metaAtPath_dir_file_agree (s : Statil) (d f : String) (hd : d ≠ "")
    (hdr : d ≠ "/") (hf : f ≠ "") (hfs : ∀ c ∈ f.data, c ≠ '/') :
    metaAtPath s (d ++ "/") = metaAtPath s (d ++ "/" ++ f) := by
  have hdf : (d ++ "/").data = d.data ++ ['/'] := by
    rw [String.data_append]
  have hL1 : (d ++ "/").data.getLast? = some '/' := by
    rw [hdf]
    exact List.getLast?_concat _
  have hL2 : String.mk (d ++ "/").data.dropLast = d := by
    rw [hdf, List.dropLast_concat]
  obtain ⟨cf, ftl, hfd⟩ : ∃ cf ftl, f.data.reverse = cf :: ftl := by
    cases hft : f.data.reverse with
    | nil =>
      have : f.data = [] := by simpa using congrArg List.reverse hft
      exact absurd this (string_data_ne_nil f hf)
    | cons a t => exact ⟨a, t, rfl⟩
  have hcf : cf ≠ '/' := by
    have : cf ∈ f.data := by
      have : cf ∈ f.data.reverse := by rw [hfd]; exact List.mem_cons_self _ _
      simpa using this
    exact hfs cf this
  have hR1 : (d ++ "/" ++ f).data.getLast? = some cf := by
    rw [String.data_append]
    rw [List.getLast?_append_of_ne_nil _ (string_data_ne_nil f hf)]
    rw [← List.head?_reverse, hfd]
    rfl
  unfold metaAtPath
  rw [hL1, hR1]
  rw [if_pos rfl]
  rw [if_neg (fun hx => hcf (Option.some.inj hx))]
  rw [hL2, dirname_append_basename d f hd hdr hf hfs]

theorem c10_witness :
    metaAtPath { templates := [], meta := [("a", Value.obj [])], rename := none }
        ("a" ++ "/")
      = metaAtPath { templates := [], meta := [("a", Value.obj [])], rename := none }
        ("a" ++ "/" ++ "b") :=
  c10_metaAtPath_dir_file_agree _ "a" "b" (by decide) (by decide) (by decide) (by decide)

/-- C7 counterexample: with `$path = "/docs/.hidden"` and prefix
`"/docs/"`, the relative path is `".hidden"`, which does not begin with
the parent-directory marker `..` (the path IS nested under the prefix),
yet `$active` returns the empty string because it tests only the first
character against `'.'`. -/
theorem c7_counterexample :
    active "/" (.str "/docs/") (.obj [("$path", .str "/docs/.hidden")]) = "" ∧
    ptRelative "/" "/docs/" "/docs/.hidden" = ".hidden" ∧
    ¬(ptRelative "/" "/docs/" "/docs/.hidden" = ".." ∨
      (ptRelative "/" "/docs/" "/docs/.hidden").data.take 3 = ['.', '.', '/']) :=
  ⟨rfl, rfl, by decide⟩

/-- C7 (amended): `$active` returns `"active"` iff the relative path
from the prefix to the context's `$path` does not begin with the
character `'.'` — which excludes not only paths outside the prefix
(relative `../…`) but also nested paths whose next segment starts with a
dot — and returns the empty string otherwise or when an input is
missing or wrong-shaped. -/
theorem c7_active_dot_rule (cwd pfx : String) (d : Value) (p : String)
    (hobj : isObject d = true) (hp : getField d "$path" = .str p) :
    (active cwd (.str pfx) d = "active"
       ↔ (ptRelative cwd pfx p).data.head? ≠ some '.') ∧
    (∀ data : Value, isObject data = false → ∀ pv, active cwd pv data = "") ∧
    (∀ pv : Value, (∀ t, pv ≠ Value.str t) → active cwd pv d = "") ∧
    (∀ data : Value, isObject data = true →
       (∀ u, getField data "$path" ≠ Value.str u) → active cwd (.str pfx) data = "") := by
  refine ⟨?_, ?_, ?_, ?_⟩
  · unfold active
    simp only [hobj, if_true, hp]
    by_cases hc : (ptRelative cwd pfx p).data.head? = some '.'
    · simp [hc]
    · simp [hc]
  · intro data hno pv
    unfold active
    simp [hno]
  · intro pv hpv
    unfold active
    cases pv with
    | str t => exact absurd rfl (hpv t)
    | undefined => simp [hobj]
    | null => simp [hobj]
    | num n => simp [hobj]
    | bool b => simp [hobj]
    | arr xs => simp [hobj]
    | obj fs => simp [hobj]
    | selfRef => simp [hobj]
  · intro data hdo hnp
    unfold active
    cases hv : getField data "$path" with
    | str u => exact absurd hv (hnp u)
    | undefined => simp [hdo, hv]
    | null => simp [hdo, hv]
    | num n => simp [hdo, hv]
    | bool b => simp [hdo, hv]
    | arr xs => simp [hdo, hv]
    | obj fs => simp [hdo, hv]
    | selfRef => simp [hdo, hv]

theorem c7_witness :
    active "/" (.str "/docs/") (.obj [("$path", .str "/docs/intro")]) = "active" ∧
    active "/" (.str "/blog/") (.obj [("$path", .str "/docs/intro")]) = "" :=
  ⟨(c7_active_dot_rule "/" "/docs/" (.obj [("$path", .str "/docs/intro")])
      "/docs/intro" rfl rfl).1.mpr (by decide), rfl⟩

/-- C8 counterexample: when the first metadata source for a directory
parses to a falsy value (here `null`, as an empty YAML document does),
the truthiness test `if (this.meta[path])` does not fire and a second
`.yaml` registration for the same directory succeeds silently instead of
throwing. -/
theorem c8_counterexample :
    register comp0 yNull "/w" noStatil "" "a/m.yaml" = .ok metaNullStatil ∧
    register comp0 yNull "/w" metaNullStatil "x: 1" "a/m2.yaml" = .ok metaNullStatil :=
  ⟨rfl, rfl⟩

/-- C8 (amended): registering a second `.yaml`/`.json` metadata source
for a directory throws the duplicate-metadata error on the second call
whenever the already-registered metadata for that directory is truthy;
a falsy stored metadata (such as a null parse of an empty document) is
silently overwritten instead. -/
theorem c8_duplicate_meta_error (comp : String → Except String Tmpl)
    (yamlP : String → Value) (cwd : String) (s : Statil) (source path : String)
    (m : Value) (hp : path ≠ "")
    (hext : parseExt (ptRelative cwd cwd path) = ".yaml"
            ∨ parseExt (ptRelative cwd cwd path) = ".json")
    (hm : lookupAssoc s.meta (dirname (ptRelative cwd cwd path)) = some m)
    (ht : truthy m = true) :
    register comp yamlP cwd s source path
      = .error ("duplicate meta for path: " ++ dirname (ptRelative cwd cwd path)) := by
  unfold register
  rw [if_neg hp, if_pos hext]
  simp only [hm, ht, if_true]

theorem c8_witness :
    register comp0 yNull "/w" dupStatil "src" "a/m2.yaml"
      = .error ("duplicate meta for path: " ++ "a") :=
  c8_duplicate_meta_error comp0 yNull "/w" dupStatil "src" "a/m2.yaml"
    (Value.obj [("x", Value.num 1)]) (by decide) (Or.inl (by decide)) rfl rfl

/-! ## C1, C5: the compiler's render semantics -/
theorem unescape_cons_ne (c : Char) (l : List Char) (h : c ≠ '\\') :
    unescapeChars (c :: l) = c :: unescapeChars l := by
  rw [unescapeChars.eq_def]
  split <;> simp_all

/-- The render-time evaluation of a generated string literal exactly
undoes the compile-time escaping. -/
theorem unescape_escape (cs : List Char) : unescapeChars (escapeChars cs) = cs := by
  induction cs with
  | nil => rfl
  | cons c cs ih =>
    by_cases h1 : c = '\\'
    · subst h1
      show ('\\' : Char) :: unescapeChars (escapeChars cs) = _
      exact congrArg (List.cons '\\') ih
    · by_cases h2 : c = '\''
      · subst h2
        show ('\'' : Char) :: unescapeChars (escapeChars cs) = _
        exact congrArg (List.cons '\'') ih
      · by_cases h3 : c = '\n'
        · subst h3
          show ('\n' : Char) :: unescapeChars (escapeChars cs) = _
          exact congrArg (List.cons '\n') ih
        · by_cases h4 : c = '\r'
          · subst h4
            show ('\r' : Char) :: unescapeChars (escapeChars cs) = _
            exact congrArg (List.cons '\r') ih
          · by_cases h5 : c = ' '
            · subst h5
              show (' ' : Char) :: unescapeChars (escapeChars cs) = _
              exact congrArg (List.cons ' ') ih
            · by_cases h6 : c = ' '
              · subst h6
                show (' ' : Char) :: unescapeChars (escapeChars cs) = _
                exact congrArg (List.cons ' ') ih
              · have he : escChar c = [c] := by
                  simp [escChar, h1, h2, h3, h4, h5, h6]
                rw [show escapeChars (c :: cs) = escChar c ++ escapeChars cs from rfl,
                  he, List.singleton_append, unescape_cons_ne c _ h1, ih]

theorem renderSeq_append (ev : String → Value → Value) (ctx : Value)
    (xs ys : List Instr) :
    renderSeq ev ctx (xs ++ ys) = renderSeq ev ctx xs ++ renderSeq ev ctx ys := by
  induction xs with
  | nil => simp [renderSeq, String.empty_append]
  | cons i is ih => simp [renderSeq, ih, String.append_assoc]

/-- C5: for every source string in which the delimiter scan finds no
value or statement delimiter, compiling and rendering with any
evaluator, compile-time context and render context returns the original
text byte-for-byte — the compile-time escaping of backslash, quote,
newline, carriage return and the Unicode line/paragraph separators is
exactly undone when the generated literal is evaluated. -/
theorem c5_literal_roundtrip (source : String) (ctxSetting : Value)
    (ev : String → Value → Value) (arg : Value)
    (h : findDelim source.data = none) :
    renderCompiled ev (compileTemplate source ctxSetting) arg = source := by
  have hparse : parseTemplate source
      = if source.data.isEmpty then [] else [.lit (String.mk (escapeChars source.data))] := by
    unfold parseTemplate
    show parseAux (source.length + 1) source.data = _
    unfold parseAux
    rw [h]
  show renderSeq ev (mergedCtx (compileTemplate source ctxSetting) arg)
      (parseTemplate source) = source
  rw [hparse]
  by_cases hs : source.data.isEmpty
  · rw [if_pos hs]
    have : source = "" := String.ext (by simpa [List.isEmpty_iff] using hs)
    rw [this]
    rfl
  · rw [if_neg hs]
    show String.mk (unescapeChars (String.mk (escapeChars source.data)).data) ++ "" = source
    rw [String.append_empty]
    show String.mk (unescapeChars (escapeChars source.data)) = source
    rw [unescape_escape]

theorem c5_witness :
    findDelim "plain 'text'\n\\".data = none ∧
    renderCompiled (fun _ _ => Value.undefined)
      (compileTemplate "plain 'text'\n\\" Value.undefined) (Value.obj [])
      = "plain 'text'\n\\" :=
  ⟨by decide, c5_literal_roundtrip _ _ _ _ (by decide)⟩

/-- C1: for every compiled template and render context, a `\x7b\x7b expr
\x7d\x7d` value delimiter contributes exactly the JS string form of the
expression's value when that value is neither null nor undefined, and
contributes nothing at all (in particular not the text "null" or
"undefined") when the value is null or undefined; the surrounding
instructions contribute independently.  The theorem is stated for
statement-free instruction sequences, where the straight-line model is
faithful. -/
theorem c1_value_delimiter (source : String) (ctxSetting : Value)
    (ev : String → Value → Value) (arg : Value) (pre post : List Instr) (e : String)
    (hi : (compileTemplate source ctxSetting).instrs = pre ++ Instr.expr e :: post)
    (_hstraight : ∀ i ∈ pre ++ Instr.expr e :: post, isStmt i = false)
    (_hobj : isObject arg = true) :
    renderCompiled ev (compileTemplate source ctxSetting) arg
      = renderSeq ev (mergedCtx (compileTemplate source ctxSetting) arg) pre
        ++ (if isNullish (ev e (mergedCtx (compileTemplate source ctxSetting) arg))
            then ""
            else jsToString (ev e (mergedCtx (compileTemplate source ctxSetting) arg)))
        ++ renderSeq ev (mergedCtx (compileTemplate source ctxSetting) arg) post ∧
    (isNullish (ev e (mergedCtx (compileTemplate source ctxSetting) arg)) = true →
      renderCompiled ev (compileTemplate source ctxSetting) arg
        = renderSeq ev (mergedCtx (compileTemplate source ctxSetting) arg) pre
          ++ renderSeq ev (mergedCtx (compileTemplate source ctxSetting) arg) post) ∧
    (isNullish (ev e (mergedCtx (compileTemplate source ctxSetting) arg)) = false →
      renderCompiled ev (compileTemplate source ctxSetting) arg
        = renderSeq ev (mergedCtx (compileTemplate source ctxSetting) arg) pre
          ++ jsToString (ev e (mergedCtx (compileTemplate source ctxSetting) arg))
          ++ renderSeq ev (mergedCtx (compileTemplate source ctxSetting) arg) post) := by
  have key : renderCompiled ev (compileTemplate source ctxSetting) arg
      = renderSeq ev (mergedCtx (compileTemplate source ctxSetting) arg) pre
        ++ ((if isNullish (ev e (mergedCtx (compileTemplate source ctxSetting) arg))
             then ""
             else jsToString (ev e (mergedCtx (compileTemplate source ctxSetting) arg)))
          ++ renderSeq ev (mergedCtx (compileTemplate source ctxSetting) arg) post) := by
    show renderSeq ev (mergedCtx (compileTemplate source ctxSetting) arg)
        (compileTemplate source ctxSetting).instrs = _
    rw [hi, renderSeq_append]
    rfl
  refine ⟨by rw [key, String.append_assoc], ?_, ?_⟩
  · intro hn
    rw [key, hn]
    simp [String.empty_append]
  · intro hn
    rw [key, hn]
    simp [String.append_assoc]

theorem c1_witness :
    renderCompiled (fun e ctx => getField ctx e)
      (compileTemplate "Hi \x7b\x7b name \x7d\x7d!" Value.undefined)
      (Value.obj [("name", Value.str "Ada")]) = "Hi Ada!" ∧
    renderCompiled (fun e ctx => getField ctx e)
      (compileTemplate "Hi \x7b\x7b name \x7d\x7d!" Value.undefined)
      (Value.obj []) = "Hi !" := by
  constructor
  · have h := (c1_value_delimiter "Hi \x7b\x7b name \x7d\x7d!" Value.undefined
        (fun e ctx => getField ctx e) (Value.obj [("name", Value.str "Ada")])
        [Instr.lit "Hi "] [Instr.lit "!"] "name" (by decide) (by decide) rfl).1
    rw [h]
    rfl
  · have h := (c1_value_delimiter "Hi \x7b\x7b name \x7d\x7d!" Value.undefined
        (fun e ctx => getField ctx e) (Value.obj [])
        [Instr.lit "Hi "] [Instr.lit "!"] "name" (by decide) (by decide) rfl).2.1 rfl
    rw [h]
    rfl

/-! ## C3: missing templates are transparent passthroughs -/
theorem ensureStrField_obj (k : String) (fs : List (String × Value)) :
    ∃ gs, ensureStrField k (.obj fs) = .obj gs := by
  unfold ensureStrField
  split
  · exact ⟨fs, rfl⟩
  · exact ⟨setAssoc fs k (.str ""), rfl⟩

theorem ensureStrField_of_str (k : String) (data : Value) (c : String)
    (h : getField data k = .str c) : ensureStrField k data = data := by
  unfold ensureStrField
  rw [h]

theorem ensureStrField_get_other (k k' : String) (fs : List (String × Value))
    (hne : k ≠ k') :
    getField (ensureStrField k (.obj fs)) k' = getField (.obj fs) k' := by
  unfold ensureStrField
  split
  · rfl
  · exact getField_setField_other fs k k' _ hne

theorem locals_obj (s : Statil) (q : String) (fs : List (String × Value)) :
    ∃ gs, locals s q (.obj fs) = .obj gs := by
  unfold locals
  dsimp only
  obtain ⟨fs1, h1⟩ := ensureStrField_obj "$content" fs
  rw [h1]
  obtain ⟨fs2, h2⟩ := ensureStrField_obj "$title" fs1
  rw [h2]
  rw [setField_obj_eq]
  cases hm : metaAtPath s q with
  | some m =>
    by_cases ht : truthy m = true
    · simp only [ht, if_true, setField_obj_eq]
      cases hl : fileLegend s q with
      | some lg => exact assignV_obj _ lg
      | none => exact ⟨_, rfl⟩
    · simp only [ht, if_false, Bool.false_eq_true]
      cases hl : fileLegend s q with
      | some lg => exact assignV_obj _ lg
      | none => exact ⟨_, rfl⟩
  | none =>
    cases hl : fileLegend s q with
    | some lg => exact assignV_obj _ lg
    | none => exact ⟨_, rfl⟩

/-- `methods.locals` leaves a string `$content` untouched when the
file's legend does not rebind it. -/
theorem locals_content_preserved (s : Statil) (q : String)
    (fs : List (String × Value)) (c : String)
    (hc : getField (.obj fs) "$content" = .str c)
    (hleg : fileLegend s q = none ∨
      ∃ fsl, fileLegend s q = some (.obj fsl) ∧ lookupAssoc fsl "$content" = none) :
    getField (locals s q (.obj fs)) "$content" = .str c := by
  unfold locals
  dsimp only
  rw [ensureStrField_of_str "$content" _ c hc]
  obtain ⟨fs2, h2⟩ := ensureStrField_obj "$title" fs
  rw [h2]
  have hc2 : getField (.obj fs2) "$content" = .str c := by
    rw [← h2, ensureStrField_get_other "$title" "$content" fs (by decide)]
    exact hc
  rw [setField_obj_eq]
  have hc3 : getField (.obj (setAssoc fs2 "$" .selfRef)) "$content" = .str c := by
    rw [← setField_obj_eq, getField_setField_other fs2 "$" "$content" _ (by decide)]
    exact hc2
  have main : ∀ (gs : List (String × Value)),
      getField (.obj gs) "$content" = .str c →
      getField ((match fileLegend s q with
        | some lg => assignV (.obj gs) lg
        | none => (.obj gs : Value)) : Value) "$content" = .str c := by
    intro gs hgs
    rcases hleg with hnone | ⟨fsl, hsome, hnc⟩
    · rw [hnone]
      exact hgs
    · rw [hsome]
      rw [getField_assignV_of_notMem gs fsl "$content" hnc]
      exact hgs
  cases hm : metaAtPath s q with
  | some m =>
    by_cases ht : truthy m = true
    · simp only [ht, if_true, setField_obj_eq]
      refine main _ ?_
      rw [← setField_obj_eq, getField_setField_other _ "$meta" "$content" _ (by decide)]
      exact hc3
    · simp only [ht, if_false, Bool.false_eq_true]
      exact main _ hc3
  | none =>
    exact main _ hc3

theorem string_append_ne_empty_left (a b : String) (h : a ≠ "") : a ++ b ≠ "" := by
  intro hab
  apply h
  apply String.ext
  have hx : (a ++ b).data = [] := by rw [hab]
  rw [String.data_append] at hx
  exact (List.append_eq_nil.mp hx).1

/-- `path.normalize` never returns the empty string. -/
theorem normalizePath_ne_empty (p : String) : normalizePath p ≠ "" := by
  unfold normalizePath
  by_cases hp : p = ""
  · simp [hp]
  · rw [if_neg hp]
    dsimp only
    split
    · split
      · decide
      · split
        · decide
        · decide
    · rename_i hbody
      split
      · exact string_append_ne_empty_left "/" _ (by decide)
      · split
        · exact string_append_ne_empty_left _ "/" hbody
        · exact hbody

theorem joinPath_ne_empty (a b : String) : joinPath a b ≠ "" := by
  unfold joinPath
  dsimp only
  split
  · decide
  · exact normalizePath_ne_empty _

/-- Every member of a `split` chain is a non-empty path when the leaf
is. -/
theorem split_mem_ne_empty (p : String) (hp : p ≠ "") :
    ∀ q ∈ split p, q ≠ "" := by
  intro q hq
  unfold split at hq
  rcases List.mem_append.mp hq with h | h
  · obtain ⟨d, _, rfl⟩ := List.mem_map.mp (List.mem_filter.mp h).1
    exact joinPath_ne_empty d "index"
  · rw [List.mem_singleton.mp h]
    exact hp

/-- `renderOne` succeeds whenever the resolved renderer does; a missing
template resolves to the always-successful passthrough. -/
theorem renderOne_ok (s : Statil) (q : String) (data : Value) (hq : q ≠ "")
    (htot : ∀ d, match lookupAssoc s.templates (stripExt q) with
      | some t => ∃ out d', t d = .ok (out, d')
      | none => True) :
    ∃ out d', renderOne s q data = .ok (out, d') := by
  unfold renderOne
  rw [if_neg hq]
  dsimp only
  cases hl : lookupAssoc s.templates (stripExt q) with
  | some t =>
    have h := htot (locals s q (ensureObj data))
    rw [hl] at h
    obtain ⟨out, d', hd⟩ := h
    exact ⟨out, d', hd⟩
  | none =>
    exact ⟨_, _, rfl⟩

theorem renderChain_ok (s : Statil) (chain : List String) (data : Value)
    (h : ∀ q ∈ chain, q ≠ "" ∧ ∀ d, match lookupAssoc s.templates (stripExt q) with
      | some t => ∃ out d', t d = .ok (out, d')
      | none => True) :
    ∃ d', renderChain s chain data = .ok d' := by
  induction chain generalizing data with
  | nil => exact ⟨data, rfl⟩
  | cons q rest ih =>
    obtain ⟨hq, htot⟩ := h q (List.mem_cons_self _ _)
    obtain ⟨out, d', hone⟩ := renderOne_ok s q data hq htot
    obtain ⟨d'', hch⟩ := ih (setField d' "$content" (.str out))
      (fun q' hm => h q' (List.mem_cons_of_mem _ hm))
    refine ⟨d'', ?_⟩
    unfold renderChain
    rw [hone]
    exact hch

/-- C3: a path with no registered template at its extension-stripped
form resolves to the passthrough renderer, whose output is exactly the
context's current `$content` (unchanged whenever the level's legend does
not rebind it); consequently a chain containing unregistered levels
still renders successfully — every chain whose registered members'
renderers succeed makes `renderThrough` succeed, unregistered members
never being an error. -/
theorem c3_passthrough_renders :
    (∀ (s : Statil) (q : String) (fs : List (String × Value)) (c : String),
       q ≠ "" →
       lookupAssoc s.templates (stripExt q) = none →
       getField (.obj fs) "$content" = .str c →
       (fileLegend s q = none ∨
         ∃ fsl, fileLegend s q = some (.obj fsl) ∧ lookupAssoc fsl "$content" = none) →
       renderOne s q (.obj fs) = .ok (c, locals s q (.obj fs))) ∧
    (∀ (s : Statil) (p : String) (data : Value),
       p ≠ "" →
       (∀ q ∈ split p, ∀ d, match lookupAssoc s.templates (stripExt q) with
         | some t => ∃ out d', t d = .ok (out, d')
         | none => True) →
       ∃ out d', renderThrough s p data = .ok (out, d')) := by
  constructor
  · intro s q fs c hq hl hc hleg
    unfold renderOne
    rw [if_neg hq]
    dsimp only
    rw [hl]
    show transclude (locals s q (.obj fs)) = _
    unfold transclude contentStr
    rw [locals_content_preserved s q fs c hc hleg]
  · intro s p data hp htot
    unfold renderThrough
    rw [if_neg hp]
    dsimp only
    obtain ⟨d', hch⟩ := renderChain_ok s (split p).reverse (ensureObj data)
      (fun q hm =>
        ⟨split_mem_ne_empty p hp q (List.mem_reverse.mp hm),
         htot q (List.mem_reverse.mp hm)⟩)
    rw [hch]
    exact ⟨_, _, rfl⟩

theorem c3_witness :
    renderOne noStatil "d/index" (.obj [("$content", Value.str "leaf")])
      = .ok ("leaf", locals noStatil "d/index" (.obj [("$content", Value.str "leaf")])) :=
  c3_passthrough_renders.1 noStatil "d/index" [("$content", Value.str "leaf")] "leaf"
    (by decide) rfl rfl (Or.inl rfl)

/-! ## Path lemmas for the echo expansion -/
theorem splitSegsAux_append_slash (xs : List Char) (ys : List Char) :
    ∀ acc, splitSegsAux (xs ++ '/' :: ys) acc = splitSegsAux xs acc ++ splitSegsAux ys [] := by
  induction xs with
  | nil => intro acc; simp [splitSegsAux]
  | cons c t ih =>
    intro acc
    by_cases hc : c = '/'
    · simp only [List.cons_append, splitSegsAux, hc, if_pos rfl, if_true]
      exact congrArg (List.cons (String.mk acc.reverse)) (ih [])
    · simp only [List.cons_append, splitSegsAux, hc, ite_false]
      exact ih (c :: acc)

theorem splitSegsAux_slash_free (n : List Char) :
    ∀ acc, (∀ c ∈ n, c ≠ '/') → splitSegsAux n acc = [String.mk (acc.reverse ++ n)] := by
  induction n with
  | nil => intro acc _; simp [splitSegsAux]
  | cons c t ih =>
    intro acc h
    have hc : c ≠ '/' := h c (List.mem_cons_self _ _)
    simp only [splitSegsAux, hc, ite_false]
    rw [ih (c :: acc) (fun c' hm => h c' (List.mem_cons_of_mem _ hm))]
    simp

theorem splitSegs_append_simple (d n : String) (hn : ∀ c ∈ n.data, c ≠ '/') :
    splitSegs (d ++ "/" ++ n) = splitSegs d ++ [n] := by
  unfold splitSegs
  rw [show (d ++ "/" ++ n).data = d.data ++ '/' :: n.data from by
    rw [String.data_append, String.data_append]
    simp]
  rw [splitSegsAux_append_slash d.data n.data []]
  rw [splitSegsAux_slash_free n.data [] hn]
  simp

theorem normalizeSegs_append_simple (allow : Bool) (segs : List String) (n : String)
    (h1 : n ≠ "") (h2 : n ≠ ".") (h3 : n ≠ "..") :
    normalizeSegs allow (segs ++ [n]) = normalizeSegs allow segs ++ [n] := by
  unfold normalizeSegs
  rw [List.foldl_append]
  show stepSeg allow (List.foldl (stepSeg allow) [] segs) n = _
  unfold stepSeg
  simp [h1, h2, h3]

theorem joinSlash_append_singleton (segs : List String) (n : String) :
    joinSlash (segs ++ [n]) = if segs.isEmpty then n else joinSlash segs ++ "/" ++ n := by
  induction segs with
  | nil => simp [joinSlash]
  | cons x xs ih =>
    cases xs with
    | nil => simp [joinSlash]
    | cons y ys =>
      rw [show joinSlash ((x :: y :: ys) ++ [n])
          = x ++ "/" ++ joinSlash ((y :: ys) ++ [n]) from rfl]
      rw [ih]
      simp only [List.isEmpty_cons, Bool.false_eq_true, if_false]
      rw [show joinSlash (x :: y :: ys) = x ++ "/" ++ joinSlash (y :: ys) from rfl]
      simp [String.append_assoc]

theorem takeWhile_ne_slash_append (xs zs : List Char) (h : ∀ c ∈ xs, c ≠ '/') :
    (xs ++ '/' :: zs).takeWhile (· ≠ '/') = xs := by
  induction xs with
  | nil => simp [List.takeWhile_cons]
  | cons c t ih =>
    have hc : decide (c ≠ '/') = true := by simp [h c (List.mem_cons_self _ _)]
    rw [List.cons_append, List.takeWhile_cons, if_pos hc]
    rw [ih fun c' hm => h c' (List.mem_cons_of_mem _ hm)]

/-- The basename of any string whose characters are some prefix, a
slash, then a non-empty slash-free `n`, is `n`. -/
theorem basename_eq_of_data (r : String) (pre : List Char) (n : String) (hn : n ≠ "")
    (hns : ∀ c ∈ n.data, c ≠ '/') (hr : r.data = pre ++ '/' :: n.data) :
    basename r = n := by
  obtain ⟨cf, ftl, hfd⟩ : ∃ cf ftl, n.data.reverse = cf :: ftl := by
    cases hft : n.data.reverse with
    | nil =>
      have : n.data = [] := by simpa using congrArg List.reverse hft
      exact absurd this (string_data_ne_nil n hn)
    | cons a t => exact ⟨a, t, rfl⟩
  have hcf : cf ≠ '/' := by
    have : cf ∈ n.data := by
      have : cf ∈ n.data.reverse := by rw [hfd]; exact List.mem_cons_self _ _
      simpa using this
    exact hns cf this
  unfold basename
  rw [hr]
  rw [show (pre ++ '/' :: n.data).reverse = n.data.reverse ++ '/' :: pre.reverse from by
    simp]
  rw [show (n.data.reverse ++ '/' :: pre.reverse).dropWhile (· = '/')
      = n.data.reverse ++ '/' :: pre.reverse from by
    rw [hfd, List.cons_append]
    exact dropWhile_slash_head_ne cf _ hcf]
  rw [takeWhile_ne_slash_append n.data.reverse pre.reverse
    (fun c hm => hns c (by simpa using hm))]
  exact String.ext (by simp)

theorem takeWhile_ne_slash_all (l : List Char) (h : ∀ c ∈ l, c ≠ '/') :
    l.takeWhile (· ≠ '/') = l := by
  induction l with
  | nil => rfl
  | cons c t ih =>
    have hc : decide (c ≠ '/') = true := by simp [h c (List.mem_cons_self _ _)]
    rw [List.takeWhile_cons, if_pos hc, ih fun c' hm => h c' (List.mem_cons_of_mem _ hm)]

theorem basename_slash_free (n : String) (hns : ∀ c ∈ n.data, c ≠ '/') :
    basename n = n := by
  cases hnd : n.data.reverse with
  | nil =>
    have hdat : n.data = [] := by simpa using congrArg List.reverse hnd
    have hn0 : n = "" := String.ext (by rw [hdat])
    rw [hn0]
    rfl
  | cons a t =>
    have ha : a ≠ '/' := hns a (by
      have : a ∈ n.data.reverse := by rw [hnd]; exact List.mem_cons_self _ _
      simpa using this)
    unfold basename
    rw [hnd, dropWhile_slash_head_ne a t ha]
    rw [takeWhile_ne_slash_all (a :: t) (fun c hm => hns c (by
      have : c ∈ n.data.reverse := by rw [hnd]; exact hm
      simpa using this))]
    apply String.ext
    show (a :: t).reverse = n.data
    rw [← hnd]
    simp

theorem string_append_ne_empty_right (a b : String) (h : b ≠ "") : a ++ b ≠ "" := by
  intro hab
  apply h
  apply String.ext
  have hx : (a ++ b).data = [] := by rw [hab]
  rw [String.data_append] at hx
  exact (List.append_eq_nil.mp hx).2

/-- node `dirname` never returns the empty string. -/
theorem dirname_ne_empty (p : String) : dirname p ≠ "" := by
  unfold dirname
  cases hpd : p.data with
  | nil => decide
  | cons c0 rest =>
    dsimp only
    split
    · split <;> decide
    · rename_i x xs heq
      rw [heq]
      split
      · decide
      · intro hx
        have hl : (c0 :: rest).take (x :: xs).length = [] := congrArg String.data hx
        rw [List.length_cons, List.take_succ_cons] at hl
        exact List.noConfusion hl

/-- The basename of `joinPath d n` is `n`, for every non-empty `d` and
every simple name `n` (non-empty, slash-free, not `.` or `..`). -/
theorem basename_joinPath (d n : String) (hd : d ≠ "") (hn : n ≠ "")
    (hdot : n ≠ ".") (hdots : n ≠ "..") (hns : ∀ c ∈ n.data, c ≠ '/') :
    basename (joinPath d n) = n := by
  obtain ⟨cf, ftl, hfd⟩ : ∃ cf ftl, n.data.reverse = cf :: ftl := by
    cases hft : n.data.reverse with
    | nil =>
      have : n.data = [] := by simpa using congrArg List.reverse hft
      exact absurd this (string_data_ne_nil n hn)
    | cons a t => exact ⟨a, t, rfl⟩
  have hcf : cf ≠ '/' := by
    have : cf ∈ n.data := by
      have : cf ∈ n.data.reverse := by rw [hfd]; exact List.mem_cons_self _ _
      simpa using this
    exact hns cf this
  unfold joinPath
  dsimp only
  rw [show [d, n].filter (· ≠ "") = [d, n] from by simp [hd, hn]]
  show basename (normalizePath (joinSlash [d, n])) = n
  rw [show joinSlash [d, n] = d ++ "/" ++ n from rfl]
  have hpn : d ++ "/" ++ n ≠ "" :=
    string_append_ne_empty_left _ _ (string_append_ne_empty_left _ _ hd)
  have hdata : (d ++ "/" ++ n).data = d.data ++ '/' :: n.data := by
    rw [String.data_append, String.data_append]
    simp
  have hlast : (d ++ "/" ++ n).data.getLast? = some cf := by
    rw [hdata, List.getLast?_append_of_ne_nil _ (show ('/' :: n.data) ≠ [] by simp)]
    rw [show ('/' :: n.data) = ['/'] ++ n.data from rfl,
        List.getLast?_append_of_ne_nil _ (string_data_ne_nil n hn)]
    rw [← List.head?_reverse, hfd]
    rfl
  have htrail : ¬((d ++ "/" ++ n).data.getLast? = some '/') := by
    rw [hlast]
    intro hx
    exact hcf (Option.some.inj hx)
  unfold normalizePath
  rw [if_neg hpn]
  dsimp only
  simp only [htrail, if_false, ite_false]
  rw [splitSegs_append_simple d n hns]
  rw [normalizeSegs_append_simple _ _ n hn hdot hdots]
  rw [joinSlash_append_singleton]
  generalize normalizeSegs (!decide ((d ++ "/" ++ n).data.head? = some '/')) (splitSegs d) = N
  have hB : (if N.isEmpty = true then n else joinSlash N ++ "/" ++ n) ≠ "" := by
    cases hNe : N.isEmpty
    · simp only [Bool.false_eq_true, if_false]
      exact string_append_ne_empty_right _ _ hn
    · simp only [if_true]
      exact hn
  rw [if_neg hB]
  by_cases habs : (d ++ "/" ++ n).data.head? = some '/'
  · rw [if_pos habs]
    cases hNe : N.isEmpty with
    | true =>
      simp only [hNe, if_true]
      exact basename_eq_of_data _ [] n hn hns (by rw [String.data_append]; rfl)
    | false =>
      simp only [hNe, Bool.false_eq_true, if_false]
      refine basename_eq_of_data _ ('/' :: (joinSlash N).data) n hn hns ?_
      rw [String.data_append, String.data_append, String.data_append]
      simp
  · rw [if_neg habs]
    cases hNe : N.isEmpty with
    | true =>
      simp only [hNe, if_true]
      exact basename_slash_free n hns
    | false =>
      simp only [hNe, Bool.false_eq_true, if_false]
      refine basename_eq_of_data _ (joinSlash N).data n hn hns ?_
      rw [String.data_append, String.data_append]
      simp

theorem joinPath_inj_simple (d n1 n2 : String) (hd : d ≠ "")
    (h1 : SimpleName n1) (h2 : SimpleName n2) (hne : n1 ≠ n2) :
    joinPath d n1 ≠ joinPath d n2 := by
  intro h
  apply hne
  have hb := congrArg basename h
  rw [basename_joinPath d n1 hd h1.1 h1.2.1 h1.2.2.1 h1.2.2.2,
      basename_joinPath d n2 hd h2.1 h2.2.1 h2.2.2.1 h2.2.2.2] at hb
  exact hb

theorem obj_of_getField_str (v : Value) (k u : String)
    (h : getField v k = .str u) : ∃ fs, v = .obj fs := by
  cases v with
  | obj fs => exact ⟨fs, rfl⟩
  | undefined => simp [getField] at h
  | null => simp [getField] at h
  | str s => simp [getField] at h
  | num n => simp [getField] at h
  | bool b => simp [getField] at h
  | arr xs => simp [getField] at h
  | selfRef => simp [getField] at h

theorem hashOf_obj (data : Value) : ∃ hs, hashOf data = .obj hs := by
  cases data <;> exact ⟨_, rfl⟩

theorem echoBase_obj (s : Statil) (p : String) (data : Value) :
    ∃ bfs, echoBase s p data = .obj bfs := by
  unfold echoBase
  obtain ⟨hfs, hh⟩ := hashOf_obj data
  rw [hh]
  obtain ⟨afs, ha⟩ := assignV_obj hfs ((fileLegend s p).getD .undefined)
  rw [ha, setField_obj_eq]
  exact ⟨_, rfl⟩

theorem echoCtx_facts (s : Statil) (p : String) (data e : Value) (n : String)
    (hN : getField e "name" = .str n) (hnd : (objKeys e).Nodup) :
    getField (echoCtx s p data e n) "name" = .str n ∧
    getField (echoCtx s p data e n) "$path" = .str (joinPath (dirname p) n) ∧
    getField (assignV (hashOf (echoBase s p data)) (omitV e)) "name" = .str n := by
  obtain ⟨efs, he⟩ := obj_of_getField_str e "name" n hN
  obtain ⟨bfs, hb⟩ := echoBase_obj s p data
  have hnd' : (efs.map Prod.fst).Nodup := by
    have := hnd
    rw [he] at this
    exact this
  have hlook : lookupAssoc efs "name" = some (Value.str n) := by
    apply getField_obj_str
    rw [← he]
    exact hN
  have hxname : getField (assignV (hashOf (echoBase s p data)) (omitV e)) "name"
      = .str n := by
    rw [hb, he]
    show getField (assignV (Value.obj bfs) (Value.obj efs)) "name" = _
    exact getField_assignV_of_lookup bfs efs "name" _ hnd' hlook
  obtain ⟨xfs, hx⟩ : ∃ xfs,
      assignV (hashOf (echoBase s p data)) (omitV e) = .obj xfs := by
    rw [hb, he]
    exact assignV_obj bfs (Value.obj efs)
  refine ⟨?_, ?_, hxname⟩
  · unfold echoCtx
    rw [hx]
    rw [getField_setField_other xfs "$path" "name" _ (by decide)]
    rw [← hx]
    exact hxname
  · unfold echoCtx
    rw [hx]
    exact getField_setField_self xfs "$path" _

theorem renderTemplate_echo_eq (s : Statil) (p : String) (data l m : Value)
    (g : String) (e1 e2 e3 : Value) (n1 n2 n3 : String)
    (hL : fileLegend s p = some l)
    (hE : getField l "echo" = .str g) (hg : g ≠ "")
    (hM : metaAtPath s p = some m)
    (hG : getField m g = .arr [e1, e2, e3])
    (hN1 : getField e1 "name" = .str n1)
    (hN2 : getField e2 "name" = .str n2)
    (hN3 : getField e3 "name" = .str n3) :
    renderTemplate s p data = renderDatas s p
      [assignV (hashOf (echoBase s p data)) (omitV e1),
       assignV (hashOf (echoBase s p data)) (omitV e2),
       assignV (hashOf (echoBase s p data)) (omitV e3)] [] := by
  have hbaseeq : echoBase s p data
      = setField (assignV (hashOf data) ((some l).getD Value.undefined)) "name"
          (.str (basename p)) := by
    unfold echoBase
    rw [hL]
  have htru : truthy (getField l "echo") = true := by
    rw [hE]
    simp [truthy, hg]
  have hEL : echoLegend (metaAtPath s p) l = .ok [e1, e2, e3] := by
    unfold echoLegend
    rw [hE]
    dsimp only
    rw [hM]
    dsimp only
    rw [hG]
    dsimp only
    rw [if_pos ?hall]
    case hall =>
      simp only [List.all_cons, List.all_nil, hN1, hN2, hN3, Bool.and_true]
  unfold renderTemplate
  dsimp only
  rw [hL]
  dsimp only
  rw [if_pos htru, hEL]
  dsimp only
  simp only [List.map_cons, List.map_nil]
  rw [← hbaseeq]

/-- C2: for a registered template whose directory metadata carries an
echo group of three distinct simple names, `renderTemplate` expands the
base context into one context per element — each context's `name` being
its element's `name` and its `$path` the join of the template's parent
directory with that name — and a successful render yields exactly three
output entries, one per echo element, keyed by those joined paths. -/
theorem c2_echo_three_outputs (s : Statil) (p : String) (data l m : Value)
    (g : String) (e1 e2 e3 : Value) (n1 n2 n3 : String)
    (hL : fileLegend s p = some l)
    (hE : getField l "echo" = .str g) (hg : g ≠ "")
    (hM : metaAtPath s p = some m)
    (hG : getField m g = .arr [e1, e2, e3])
    (hN1 : getField e1 "name" = .str n1)
    (hN2 : getField e2 "name" = .str n2)
    (hN3 : getField e3 "name" = .str n3)
    (hnd1 : (objKeys e1).Nodup) (hnd2 : (objKeys e2).Nodup) (hnd3 : (objKeys e3).Nodup)
    (hs1 : SimpleName n1) (hs2 : SimpleName n2) (hs3 : SimpleName n3)
    (h12 : n1 ≠ n2) (h13 : n1 ≠ n3) (h23 : n2 ≠ n3)
    (hrn : s.rename = none) :
    (getField (echoCtx s p data e1 n1) "name" = .str n1 ∧
     getField (echoCtx s p data e2 n2) "name" = .str n2 ∧
     getField (echoCtx s p data e3 n3) "name" = .str n3) ∧
    (getField (echoCtx s p data e1 n1) "$path" = .str (joinPath (dirname p) n1) ∧
     getField (echoCtx s p data e2 n2) "$path" = .str (joinPath (dirname p) n2) ∧
     getField (echoCtx s p data e3 n3) "$path" = .str (joinPath (dirname p) n3)) ∧
    (∀ buf, renderTemplate s p data = .ok buf →
       buf.map Prod.fst = [joinPath (dirname p) n1, joinPath (dirname p) n2,
         joinPath (dirname p) n3] ∧
       buf.length = 3 ∧
       ∃ r1 r2 r3 u1 u2 u3,
         renderThrough s p (echoCtx s p data e1 n1) = .ok (r1, u1) ∧
         renderThrough s p (echoCtx s p data e2 n2) = .ok (r2, u2) ∧
         renderThrough s p (echoCtx s p data e3 n3) = .ok (r3, u3) ∧
         buf = [(joinPath (dirname p) n1, r1), (joinPath (dirname p) n2, r2),
                (joinPath (dirname p) n3, r3)]) := by
  obtain ⟨hc1n, hc1p, hx1n⟩ := echoCtx_facts s p data e1 n1 hN1 hnd1
  obtain ⟨hc2n, hc2p, hx2n⟩ := echoCtx_facts s p data e2 n2 hN2 hnd2
  obtain ⟨hc3n, hc3p, hx3n⟩ := echoCtx_facts s p data e3 n3 hN3 hnd3
  have hd : dirname p ≠ "" := dirname_ne_empty p
  have hq12 : joinPath (dirname p) n1 ≠ joinPath (dirname p) n2 :=
    joinPath_inj_simple _ _ _ hd hs1 hs2 h12
  have hq13 : joinPath (dirname p) n1 ≠ joinPath (dirname p) n3 :=
    joinPath_inj_simple _ _ _ hd hs1 hs3 h13
  have hq23 : joinPath (dirname p) n2 ≠ joinPath (dirname p) n3 :=
    joinPath_inj_simple _ _ _ hd hs2 hs3 h23
  refine ⟨⟨hc1n, hc2n, hc3n⟩, ⟨hc1p, hc2p, hc3p⟩, ?_⟩
  intro buf hbuf
  rw [renderTemplate_echo_eq s p data l m g e1 e2 e3 n1 n2 n3 hL hE hg hM hG
    hN1 hN2 hN3] at hbuf
  simp only [renderDatas] at hbuf
  rw [hx1n, hx2n, hx3n] at hbuf
  dsimp only at hbuf
  rw [hrn] at hbuf
  dsimp only [applyRename] at hbuf
  cases hr1 : renderThrough s p
      (setField (assignV (hashOf (echoBase s p data)) (omitV e1)) "$path"
        (.str (joinPath (dirname p) n1))) with
  | error e => rw [hr1] at hbuf; simp at hbuf
  | ok r1u =>
    obtain ⟨r1, u1⟩ := r1u
    rw [hr1] at hbuf
    dsimp only at hbuf
    cases hr2 : renderThrough s p
        (setField (assignV (hashOf (echoBase s p data)) (omitV e2)) "$path"
          (.str (joinPath (dirname p) n2))) with
    | error e => rw [hr2] at hbuf; simp at hbuf
    | ok r2u =>
      obtain ⟨r2, u2⟩ := r2u
      rw [hr2] at hbuf
      dsimp only at hbuf
      cases hr3 : renderThrough s p
          (setField (assignV (hashOf (echoBase s p data)) (omitV e3)) "$path"
            (.str (joinPath (dirname p) n3))) with
      | error e => rw [hr3] at hbuf; simp at hbuf
      | ok r3u =>
        obtain ⟨r3, u3⟩ := r3u
        rw [hr3] at hbuf
        dsimp only at hbuf
        have hsa : setAssoc (setAssoc (setAssoc ([] : List (String × String))
            (joinPath (dirname p) n1) r1) (joinPath (dirname p) n2) r2)
            (joinPath (dirname p) n3) r3
            = [(joinPath (dirname p) n1, r1), (joinPath (dirname p) n2, r2),
               (joinPath (dirname p) n3, r3)] := by
          simp [setAssoc, hq12, hq13, hq23]
        rw [hsa] at hbuf
        have hbeq : buf = [(joinPath (dirname p) n1, r1), (joinPath (dirname p) n2, r2),
            (joinPath (dirname p) n3, r3)] :=
          (Except.ok.inj hbuf).symm
        subst hbeq
        refine ⟨by simp, by simp, r1, r2, r3, u1, u2, u3, hr1, hr2, hr3, rfl⟩

theorem c2_witness :
    renderTemplate echoStatil "d/t" Value.undefined
      = .ok [("d/x1", "leaf"), ("d/x2", "leaf"), ("d/x3", "leaf")] ∧
    getField (echoCtx echoStatil "d/t" Value.undefined e1C "x1") "name" = Value.str "x1" ∧
    ([("d/x1", "leaf"), ("d/x2", "leaf"), ("d/x3", "leaf")] :
        List (String × String)).length = 3 := by
  have h := c2_echo_three_outputs echoStatil "d/t" Value.undefined lC mC "groupX"
      e1C e2C e3C "x1" "x2" "x3" rfl rfl (by decide) rfl rfl rfl rfl rfl
      (by decide) (by decide) (by decide)
      ⟨by decide, by decide, by decide, by decide⟩
      ⟨by decide, by decide, by decide, by decide⟩
      ⟨by decide, by decide, by decide, by decide⟩
      (by decide) (by decide) (by decide) rfl
  have hrt : renderTemplate echoStatil "d/t" Value.undefined
      = .ok [("d/x1", "leaf"), ("d/x2", "leaf"), ("d/x3", "leaf")] := rfl
  exact ⟨hrt, h.1.1, (h.2.2 _ hrt).2.1⟩

/-! ## C9: ignore filtering -/
theorem renderLoop_filter (rmatch : String → String → Bool) (s : Statil) (data : Value) :
    ∀ (l : List (String × Tmpl)) (buffer : List (String × String)),
    (∀ pt ∈ l, ∃ b, isIgnored rmatch s pt.1 = .ok b) →
    renderLoop rmatch s data l buffer
      = renderLoop rmatch s data
          (l.filter fun pt => match isIgnored rmatch s pt.1 with
            | .ok b => !b
            | .error _ => false) buffer := by
  intro l
  induction l with
  | nil => intro buffer _; rfl
  | cons pt rest ih =>
    intro buffer h
    obtain ⟨b, hb⟩ := h pt (List.mem_cons_self _ _)
    have hrest := fun buffer => ih buffer (fun pt' hm => h pt' (List.mem_cons_of_mem _ hm))
    obtain ⟨p, t⟩ := pt
    cases b with
    | true =>
      have hpred : (match isIgnored rmatch s p with
          | .ok b => !b
          | .error _ => false) = false := by rw [hb]; rfl
      rw [List.filter_cons, hpred]
      simp only [Bool.false_eq_true, if_false]
      simp only [renderLoop]
      rw [hb]
      exact hrest buffer
    | false =>
      have hpred : (match isIgnored rmatch s p with
          | .ok b => !b
          | .error _ => false) = true := by rw [hb]; rfl
      rw [List.filter_cons, hpred, if_pos rfl]
      simp only [renderLoop]
      rw [hb]
      cases hr : renderTemplate s p data with
      | ok entries => exact hrest _
      | error e => rfl

/-- C9: the render orchestrator's output is built from exactly the
registered templates whose paths are not ignored — filtering out every
template whose basename matches its directory metadata's truthy `ignore`
pattern changes nothing — and a template in a directory without
metadata, or whose metadata has no truthy `ignore` field, is never
skipped. -/
theorem c9_ignore_filtering (rmatch : String → String → Bool) (s : Statil) (data : Value)
    (hok : ∀ pt ∈ s.templates, ∃ b, isIgnored rmatch s pt.1 = .ok b) :
    render rmatch s data
      = renderLoop rmatch s data
          (s.templates.filter fun pt => match isIgnored rmatch s pt.1 with
            | .ok b => !b
            | .error _ => false) [] ∧
    (∀ p, (match metaAtPath s p with
           | none => True
           | some m => truthy (getField m "ignore") = false) →
       isIgnored rmatch s p = .ok false) := by
  constructor
  · exact renderLoop_filter rmatch s data s.templates [] hok
  · intro p hp
    unfold isIgnored
    cases hm : metaAtPath s p with
    | none => rfl
    | some m =>
      rw [hm] at hp
      simp only [hp, Bool.false_eq_true, if_false]

theorem c9_witness :
    render eqMatch igStatil Value.undefined
      = renderLoop eqMatch igStatil Value.undefined
          (igStatil.templates.filter fun pt =>
            match isIgnored eqMatch igStatil pt.1 with
            | .ok b => !b
            | .error _ => false) [] ∧
    isIgnored eqMatch igStatil "other/x" = .ok false := by
  have hok : ∀ pt ∈ igStatil.templates, ∃ b, isIgnored eqMatch igStatil pt.1 = .ok b := by
    intro pt hm
    rcases List.mem_cons.mp hm with h1 | h1
    · subst h1
      exact ⟨true, rfl⟩
    · rw [List.mem_singleton] at h1
      subst h1
      exact ⟨false, rfl⟩
  have h := c9_ignore_filtering eqMatch igStatil Value.undefined hok
  exact ⟨h.1, h.2 "other/x" trivial⟩
